import Mathlib

/-
  Verification development for the CellML Text editor core
  (scanner, recursive-descent parser + XML serializer, CellML-Text
  generator, LaTeX generator).

  The definitions below are a shallow embedding of the TypeScript
  sources:
    - src/lib/CellMLTextScanner.ts    (namespace Scan)
    - src/lib/CellMLTextParser.ts     (namespace Parser)
    - src/lib/CellMLTextGenerator.ts  (namespace TextGen)
    - CellMLLatexGenerator (newer draft)   (namespace LatexGen)

  DOM element trees are modelled by the inductive `Elem`; machine
  strings by Lean `String` / `List Char`; the browser's external
  `DOMParser` (used only by the text generator's entry point) is
  abstracted as an `Option Elem` input, `none` standing for an XML
  parse failure.  Possible non-termination of the TypeScript parser
  is made observable through an explicit fuel parameter: every loop
  iteration and recursive call consumes one unit of fuel, and a run
  that exhausts its fuel returns a distinguished `nofuel` outcome.
-/

namespace CellMLText

/-- Token kinds, mirroring `enum TokenType` of CellMLTextScanner.ts
(the `String` member is named `Str` here; it is never produced). -/
inductive Tok where
  | EOF
  | Identifier
  | Number
  | Str
  | KwDef
  | KwModel
  | KwComp
  | KwEndDef
  | KwAs
  | KwVar
  | KwUnit
  | KwSel
  | KwCase
  | KwOtherwise
  | KwEndSel
  | OpAss
  | OpPlus
  | OpMinus
  | OpTimes
  | OpDivide
  | OpComma
  | Colon
  | SemiColon
  | LParam
  | RParam
  | LBrace
  | RBrace
  | OpEq
  | OpNe
  | OpLt
  | OpLe
  | OpGt
  | OpGe
  | OpAnd
  | OpOr
  deriving DecidableEq, Repr

/-- The numeric value of a `TokenType` member (TypeScript enums number
their members from 0 in declaration order); used by `expectValue`'s
error message, which interpolates the raw enum value. -/
def tokIdx : Tok → Nat
  | .EOF => 0
  | .Identifier => 1
  | .Number => 2
  | .Str => 3
  | .KwDef => 4
  | .KwModel => 5
  | .KwComp => 6
  | .KwEndDef => 7
  | .KwAs => 8
  | .KwVar => 9
  | .KwUnit => 10
  | .KwSel => 11
  | .KwCase => 12
  | .KwOtherwise => 13
  | .KwEndSel => 14
  | .OpAss => 15
  | .OpPlus => 16
  | .OpMinus => 17
  | .OpTimes => 18
  | .OpDivide => 19
  | .OpComma => 20
  | .Colon => 21
  | .SemiColon => 22
  | .LParam => 23
  | .RParam => 24
  | .LBrace => 25
  | .RBrace => 26
  | .OpEq => 27
  | .OpNe => 28
  | .OpLt => 29
  | .OpLe => 30
  | .OpGt => 31
  | .OpGe => 32
  | .OpAnd => 33
  | .OpOr => 34

/-- The reverse-mapped name `TokenType[t]` (TypeScript numeric enums
expose the member name); used by `expect`'s error message. -/
def tokName : Tok → String
  | .EOF => "EOF"
  | .Identifier => "Identifier"
  | .Number => "Number"
  | .Str => "String"
  | .KwDef => "KwDef"
  | .KwModel => "KwModel"
  | .KwComp => "KwComp"
  | .KwEndDef => "KwEndDef"
  | .KwAs => "KwAs"
  | .KwVar => "KwVar"
  | .KwUnit => "KwUnit"
  | .KwSel => "KwSel"
  | .KwCase => "KwCase"
  | .KwOtherwise => "KwOtherwise"
  | .KwEndSel => "KwEndSel"
  | .OpAss => "OpAss"
  | .OpPlus => "OpPlus"
  | .OpMinus => "OpMinus"
  | .OpTimes => "OpTimes"
  | .OpDivide => "OpDivide"
  | .OpComma => "OpComma"
  | .Colon => "Colon"
  | .SemiColon => "SemiColon"
  | .LParam => "LParam"
  | .RParam => "RParam"
  | .LBrace => "LBrace"
  | .RBrace => "RBrace"
  | .OpEq => "OpEq"
  | .OpNe => "OpNe"
  | .OpLt => "OpLt"
  | .OpLe => "OpLe"
  | .OpGt => "OpGt"
  | .OpGe => "OpGe"
  | .OpAnd => "OpAnd"
  | .OpOr => "OpOr"

namespace Scan

/-- The JavaScript `\s` class, restricted to the ASCII whitespace
characters that can occur in CellML Text sources. -/
def isWs (c : Char) : Bool :=
  c = ' ' || c = '\t' || c = '\n' || c = '\r' || c = '\x0b' || c = '\x0c'

/-- `getKeywordType` of CellMLTextScanner.ts: keyword folding for a
scanned identifier word. -/
def getKeywordType (word : String) : Tok :=
  if word = "def" then .KwDef
  else if word = "model" then .KwModel
  else if word = "comp" then .KwComp
  else if word = "enddef" then .KwEndDef
  else if word = "as" then .KwAs
  else if word = "var" then .KwVar
  else if word = "unit" then .KwUnit
  else if word = "sel" then .KwSel
  else if word = "case" then .KwCase
  else if word = "otherwise" then .KwOtherwise
  else if word = "endsel" then .KwEndSel
  else if word = "and" then .OpAnd
  else if word = "or" then .OpOr
  else .Identifier

/-- Start of an identifier: `[A-Za-z_]`. -/
def isIdentStart (c : Char) : Bool := c.isAlpha || c = '_'

/-- Identifier continuation: `[A-Za-z0-9_]`. -/
def isIdentChar (c : Char) : Bool := c.isAlphanum || c = '_'

theorem dropWhile_len_le {α : Type} (p : α → Bool) (l : List α) :
    (l.dropWhile p).length ≤ l.length := by
  induction l with
  | nil => simp [List.dropWhile]
  | cons a l ih =>
    simp only [List.dropWhile, List.length_cons]
    split
    · omega
    · simp

/-- `skipWhitespace` of CellMLTextScanner.ts, with an explicit
structural-recursion bound (`skipWs` below instantiates it with the
input length, which each iteration strictly decreases, so the bound
is never reached): removes leading whitespace and `//` line comments
and counts the newlines skipped.  A comment runs up to (not
including) the terminating newline, which is then consumed — and
counted — by the whitespace branch. -/
def skipWsF : Nat → List Char → List Char × Nat
  | 0, l => (l, 0)
  | _ + 1, [] => ([], 0)
  | fuel + 1, c :: cs =>
    if isWs c then
      ((skipWsF fuel cs).1, (skipWsF fuel cs).2 + (if c = '\n' then 1 else 0))
    else if c = '/' && cs.head? = some '/' then
      skipWsF fuel (cs.tail.dropWhile (fun d => d != '\n'))
    else (c :: cs, 0)

/-- `skipWhitespace` of CellMLTextScanner.ts. -/
def skipWs (l : List Char) : List Char × Nat := skipWsF l.length l

theorem skipWsF_length_le (fuel : Nat) (l : List Char) :
    (skipWsF fuel l).1.length ≤ l.length := by
  induction fuel generalizing l with
  | zero => simp [skipWsF]
  | succ fuel ih =>
    match l with
    | [] => simp [skipWsF]
    | c :: cs =>
      simp only [skipWsF]
      split
      · have := ih cs
        simp only [List.length_cons]
        omega
      · split
        · have h1 := ih (cs.tail.dropWhile (fun d => d != '\n'))
          have h2 := dropWhile_len_le (fun d => d != '\n') cs.tail
          have h3 : cs.tail.length ≤ cs.length := by cases cs <;> simp
          simp only [List.length_cons]
          omega
        · simp

theorem skipWs_length_le (l : List Char) : (skipWs l).1.length ≤ l.length :=
  skipWsF_length_le l.length l

/-- The decimal-part loop of the number branch of `nextToken`: if the
input starts with `'.'`, consume it and a (possibly empty) digit
run; return the consumed text and the remaining input. -/
def numFrac (m : List Char) : List Char × List Char :=
  match m with
  | '.' :: t =>
    (match t.span (fun c => c.isDigit) with
     | (f, r) => ('.' :: f, r))
  | _ => ([], m)

/-- The scientific-notation part of the number branch of `nextToken`:
if the input starts with `e`/`E`, consume it, an optional sign and a
(possibly empty) digit run; return the consumed text and the rest. -/
def numExp (m : List Char) : List Char × List Char :=
  match m with
  | e :: t =>
    if e = 'e' || e = 'E' then
      match t with
      | s :: t2 =>
        if s = '+' || s = '-' then
          (match t2.span (fun c => c.isDigit) with
           | (d, r) => (e :: s :: d, r))
        else
          (match t.span (fun c => c.isDigit) with
           | (d, r) => (e :: d, r))
      | [] => ([e], [])
    else ([], m)
  | [] => ([], m)

/-- The number branch of `nextToken`: consumes an optional digit run,
then `numFrac` (an optional `'.'` with a possibly-empty digit run),
then `numExp` (an optional `e`/`E` with an optional sign and a
possibly-empty digit run); returns the consumed text and the
remaining input. -/
def numLex (input : List Char) : String × List Char :=
  match input.span (fun c => c.isDigit) with
  | (i, r1) =>
    match numFrac r1 with
    | (f, r2) =>
      match numExp r2 with
      | (x, r3) => (String.mk (i ++ f ++ x), r3)

/-- One step of `nextToken` of CellMLTextScanner.ts, as a pure
function of the remaining input, the line counter and the previous
token text (which the TypeScript scanner leaves untouched when it
reaches end of input), with an explicit structural-recursion bound
(instantiated by `scanStep` with one more than the input length,
which is always sufficient because the `'!'`-alone and
unknown-character retries strictly shrink the input).  Returns the
token kind, its text, the remaining input and the updated line
counter.  The retry branches log a console warning (not modelled)
and re-invoke the scanner on the rest of the input. -/
def scanStepF : Nat → List Char → Nat → String → Tok × String × List Char × Nat
  | 0, _, line, prev => (.EOF, prev, [], line)
  | fuel + 1, input, line, prev =>
    match skipWs input with
    | (r, nl) =>
      let ln := line + nl
      match r with
      | [] => (.EOF, prev, [], ln)
      | c :: cs =>
        if isIdentStart c then
          let word := String.mk ((c :: cs).takeWhile isIdentChar)
          (getKeywordType word, word, (c :: cs).dropWhile isIdentChar, ln)
        else if c.isDigit || (c = '.' && (cs.head?.map Char.isDigit).getD false) then
          let n := numLex (c :: cs)
          (.Number, n.1, n.2, ln)
        else if c = '=' then
          match cs with
          | '=' :: cs2 => (.OpEq, "==", cs2, ln)
          | _ => (.OpAss, "=", cs, ln)
        else if c = '!' then
          match cs with
          | '=' :: cs2 => (.OpNe, "!=", cs2, ln)
          | _ => scanStepF fuel cs ln "!"
        else if c = '<' then
          match cs with
          | '=' :: cs2 => (.OpLe, "<=", cs2, ln)
          | _ => (.OpLt, "<", cs, ln)
        else if c = '>' then
          match cs with
          | '=' :: cs2 => (.OpGe, ">=", cs2, ln)
          | _ => (.OpGt, ">", cs, ln)
        else if c = '+' then (.OpPlus, "+", cs, ln)
        else if c = '-' then (.OpMinus, "-", cs, ln)
        else if c = '*' then (.OpTimes, "*", cs, ln)
        else if c = '/' then (.OpDivide, "/", cs, ln)
        else if c = '(' then (.LParam, "(", cs, ln)
        else if c = ')' then (.RParam, ")", cs, ln)
        else if c = '\x7b' then (.LBrace, "\x7b", cs, ln)
        else if c = '\x7d' then (.RBrace, "\x7d", cs, ln)
        else if c = ':' then (.Colon, ":", cs, ln)
        else if c = ';' then (.SemiColon, ";", cs, ln)
        else if c = ',' then (.OpComma, ",", cs, ln)
        else scanStepF fuel cs ln (String.mk [c])

/-- `nextToken` of CellMLTextScanner.ts as a pure step function. -/
def scanStep (input : List Char) (line : Nat) (prev : String) :
    Tok × String × List Char × Nat :=
  scanStepF (input.length + 1) input line prev

/-- The scanner's per-call state: remaining input, 1-based line
counter, the current token and its text. -/
structure ScanState where
  rest : List Char
  line : Nat
  tok : Tok
  val : String
  deriving DecidableEq, Repr

/-- `nextToken` as a state transformer. -/
def advance (s : ScanState) : ScanState :=
  match scanStep s.rest s.line s.val with
  | (t, v, r, ln) => ⟨r, ln, t, v⟩

/-- Scanner construction: line 1, then `nextToken()` primes the first
token (the constructor's "prime the pump" call). -/
def initScan (text : String) : ScanState :=
  advance ⟨text.data, 1, .EOF, ""⟩

end Scan

/-- A namespace-qualified attribute: namespace URI (empty for none),
qualified name (as rendered, prefix included) and value. -/
structure Attr where
  ns : String
  name : String
  value : String
  deriving DecidableEq, Repr

/-- A DOM element: namespace URI, qualified tag name, ordered
attributes, ordered element children and text content.  The trees
built by the parser contain either element children or text, never
mixed content, so a single `text` field suffices. -/
inductive Elem where
  | mk (ns : String) (tag : String) (attrs : List Attr) (children : List Elem) (text : String)
  deriving Repr

def Elem.ns : Elem → String
  | .mk n _ _ _ _ => n

def Elem.tag : Elem → String
  | .mk _ t _ _ _ => t

def Elem.attrs : Elem → List Attr
  | .mk _ _ a _ _ => a

def Elem.children : Elem → List Elem
  | .mk _ _ _ c _ => c

def Elem.text : Elem → String
  | .mk _ _ _ _ t => t

mutual

def beqE : Elem → Elem → Bool
  | .mk n1 t1 a1 c1 x1, .mk n2 t2 a2 c2 x2 =>
    n1 == n2 && t1 == t2 && a1 == a2 && beqEL c1 c2 && x1 == x2

def beqEL : List Elem → List Elem → Bool
  | [], [] => true
  | c :: cs, d :: ds => beqE c d && beqEL cs ds
  | _, _ => false

end

mutual

theorem beqE_iff (a b : Elem) : beqE a b = true ↔ a = b := by
  match a, b with
  | .mk n1 t1 a1 c1 x1, .mk n2 t2 a2 c2 x2 =>
    have h := beqEL_iff c1 c2
    simp [beqE, h, beq_iff_eq]
    tauto

theorem beqEL_iff (l1 l2 : List Elem) : beqEL l1 l2 = true ↔ l1 = l2 := by
  match l1, l2 with
  | [], [] => simp [beqEL]
  | c :: cs, d :: ds =>
    have h1 := beqE_iff c d
    have h2 := beqEL_iff cs ds
    simp [beqEL, h1, h2]
  | [], _ :: _ => simp [beqEL]
  | _ :: _, [] => simp [beqEL]

end

instance : DecidableEq Elem :=
  fun a b => decidable_of_iff (beqE a b = true) (beqE_iff a b)

/- A size measure on element trees, used as a fuel bound for the
generator walks (which may step from a node to a grandchild, so they
are written with explicit fuel; `sizeE` dominates the tree depth). -/
mutual

def sizeE : Elem → Nat
  | .mk _ _ _ cs _ => 1 + sizeEL cs

def sizeEL : List Elem → Nat
  | [] => 0
  | c :: cs => sizeE c + sizeEL cs

end

/-- The part of a qualified name after its (first) colon; the whole
name when there is no colon.  Models DOM `localName`. -/
def afterColon (l : List Char) : List Char :=
  match l.dropWhile (fun c => c != ':') with
  | [] => l
  | _ :: rest => rest

def localOf (s : String) : String := String.mk (afterColon s.data)

/-- DOM `setAttribute`: replace the value of an attribute with the
same qualified name, else append. -/
def setAttr (as : List Attr) (name value : String) : List Attr :=
  match as with
  | [] => [⟨"", name, value⟩]
  | a :: rest =>
    if a.name = name then ⟨a.ns, a.name, value⟩ :: rest
    else a :: setAttr rest name value

/-- DOM `getAttribute`: look up by qualified name. -/
def getAttr (as : List Attr) (name : String) : Option String :=
  match as.find? (fun a => a.name = name) with
  | some a => some a.value
  | none => none

/-- DOM `getAttributeNS`: look up by namespace and local name. -/
def getAttrNS (as : List Attr) (ns local_ : String) : Option String :=
  match as.find? (fun a => a.ns = ns && localOf a.name = local_) with
  | some a => some a.value
  | none => none

def hasAttr (as : List Attr) (name : String) : Bool :=
  (getAttr as name).isSome

def Elem.getAttr (e : Elem) (name : String) : Option String :=
  CellMLText.getAttr e.attrs name

def Elem.setAttr (e : Elem) (name value : String) : Elem :=
  match e with
  | .mk ns tag as cs tx => .mk ns tag (CellMLText.setAttr as name value) cs tx

def appendChild (e : Elem) (c : Elem) : Elem :=
  match e with
  | .mk ns tag as cs tx => .mk ns tag as (cs ++ [c]) tx

/- DOM `textContent`: the concatenation of all descendant text (the
trees handled here never mix text and element children, so the
relative order of a node's own text and its children's is
immaterial). -/
mutual

def textAll : Elem → String
  | .mk _ _ _ cs tx => tx ++ textAllL cs

def textAllL : List Elem → String
  | [] => ""
  | c :: cs => textAll c ++ textAllL cs

end

/- All proper descendants of an element, in document (pre-)order;
models `getElementsByTagName`-style traversal. -/
mutual

def descendants : Elem → List Elem
  | .mk _ _ _ cs _ => descList cs

def descList : List Elem → List Elem
  | [] => []
  | c :: cs => c :: (descendants c ++ descList cs)

end

/- First element (the node itself included) in document order
matching a namespace and local name; models
`getElementsByTagNameNS(ns, loc)[0]` on a document. -/
mutual

def findNS (ns loc : String) : Elem → Option Elem
  | .mk n t a cs x =>
    if n = ns && localOf t = loc then some (.mk n t a cs x)
    else findNSL ns loc cs

def findNSL (ns loc : String) : List Elem → Option Elem
  | [] => none
  | c :: cs =>
    match findNS ns loc c with
    | some e => some e
    | none => findNSL ns loc cs

end

/-- JS string `trim` restricted to the ASCII whitespace characters. -/
def trimStr (s : String) : String :=
  String.mk (((s.data.dropWhile Scan.isWs).reverse.dropWhile Scan.isWs).reverse)

namespace Parser

def CELLML_NS : String := "http://www.cellml.org/cellml/2.0#"
def MATHML_NS : String := "http://www.w3.org/1998/Math/MathML"

/-- `ParserOptions`: the source-line attribute name; `none` models
`null` (tracking disabled), and the TypeScript default is
`some "data-source-location"`. -/
structure POpts where
  sourceLineAttr : Option String
  deriving DecidableEq, Repr

def defaultOpts : POpts := ⟨some "data-source-location"⟩

/-- JavaScript truthiness of `this.sourceLineAttr`: `null` and the
empty string disable source tracking. -/
def srcEnabled (o : POpts) : Bool :=
  match o.sourceLineAttr with
  | some a => a ≠ ""
  | none => false

def srcName (o : POpts) : String :=
  match o.sourceLineAttr with
  | some a => a
  | none => ""

/-- `ParserError`: line and message. -/
structure PErr where
  line : Nat
  message : String
  deriving DecidableEq, Repr

/-- Outcome of running a parser fragment: success with a value and
the scanner state, a thrown error (carrying the scanner line at the
throw site, which is what the top-level `catch` reports), or fuel
exhaustion (the TypeScript original would still be looping). -/
inductive PRes (α : Type) where
  | ok : α → Scan.ScanState → PRes α
  | err : PErr → PRes α
  | nofuel : PRes α
  deriving DecidableEq, Repr

/-- The parser's exception-plus-mutable-scanner effect. -/
def PM (α : Type) : Type := Scan.ScanState → PRes α

def pmPure {α : Type} (a : α) : PM α := fun s => .ok a s

def pmBind {α β : Type} (m : PM α) (f : α → PM β) : PM β := fun s =>
  match m s with
  | .ok a s2 => f a s2
  | .err e => .err e
  | .nofuel => .nofuel

instance : Monad PM where
  pure := pmPure
  bind := pmBind

/-- `throw new Error(msg)`: carries the scanner's current line. -/
def throwErr {α : Type} (msg : String) : PM α :=
  fun s => .err ⟨s.line, msg⟩

/-- Read the scanner state (current token, its text, the line). -/
def peek : PM Scan.ScanState :=
  fun s => .ok s s

/-- `this.scanner.nextToken()`. -/
def adv : PM Unit :=
  fun s => .ok () (Scan.advance s)

/-- Fuel exhaustion: the TypeScript original would not have returned. -/
def noFuel {α : Type} : PM α :=
  fun _ => .nofuel

/-- `expect` of CellMLTextParser.ts. -/
def expectT (t : Tok) : PM Unit :=
  fun s =>
    if s.tok = t then .ok () (Scan.advance s)
    else .err ⟨s.line, "Syntax Error: Expected " ++ tokName t ++ " but found '" ++ s.val ++ "'"⟩

/-- `expectValue` of CellMLTextParser.ts. -/
def expectValue (t : Tok) : PM String :=
  fun s =>
    if s.tok = t then .ok s.val (Scan.advance s)
    else .err ⟨s.line, "Expected value of type " ++ tokName t ++ ", got " ++ Nat.repr (tokIdx s.tok)⟩

def mkOp (tag : String) : Elem := .mk MATHML_NS tag [] [] ""

def mkApply2 (tag : String) (l r : Elem) : Elem :=
  .mk MATHML_NS "apply" [] [mkOp tag, l, r] ""

/-- `isComparisonToken` of CellMLTextParser.ts. -/
def isComparisonToken (t : Tok) : Bool :=
  t = .OpEq || t = .OpNe || t = .OpLt || t = .OpLe || t = .OpGt || t = .OpGe

/-- The `switch` in `parseComparison` mapping a comparison token to a
MathML tag (the unreachable default leaves the name empty). -/
def compTagName (t : Tok) : String :=
  if t = .OpEq then "eq"
  else if t = .OpNe then "neq"
  else if t = .OpLt then "lt"
  else if t = .OpLe then "leq"
  else if t = .OpGt then "gt"
  else if t = .OpGe then "geq"
  else if t = .OpAnd then "and"
  else ""

/- The grammar functions of CellMLTextParser.ts.  Every function
takes a fuel argument: each recursive call and each loop iteration
steps it down by one, so the block is structurally recursive on the
fuel, and a run that exhausts it answers `nofuel` (mirroring a
TypeScript run that is still looping).  `while` loops of the source
become `...Loop` helpers. -/
mutual

/-- `parseCondition`: `Comparison (('and'|'or') Comparison)*`,
folded left-to-right. -/
def parseCondition : Nat → PM Elem
  | 0 => noFuel
  | fuel + 1 => do
    let left ← parseComparison fuel
    condLoop fuel left

/-- The `while` loop of `parseCondition`. -/
def condLoop : Nat → Elem → PM Elem
  | 0, _ => noFuel
  | fuel + 1, left => do
    let s ← peek
    if s.tok = .OpAnd || s.tok = .OpOr then do
      adv
      let right ← parseComparison fuel
      condLoop fuel (mkApply2 (if s.tok = .OpAnd then "and" else "or") left right)
    else
      pure left

/-- `parseComparison`: an expression, optionally followed by one
comparison operator and a second expression; degenerates to the bare
expression when no comparison operator is present. -/
def parseComparison : Nat → PM Elem
  | 0 => noFuel
  | fuel + 1 => do
    let left ← parseExpression fuel
    let s ← peek
    if isComparisonToken s.tok then do
      adv
      let right ← parseExpression fuel
      pure (mkApply2 (compTagName s.tok) left right)
    else
      pure left

/-- `parseExpression`: `Term (('+'|'-') Term)*`, folded left. -/
def parseExpression : Nat → PM Elem
  | 0 => noFuel
  | fuel + 1 => do
    let left ← parseTerm fuel
    exprLoop fuel left

/-- The `while` loop of `parseExpression`. -/
def exprLoop : Nat → Elem → PM Elem
  | 0, _ => noFuel
  | fuel + 1, left => do
    let s ← peek
    if s.tok = .OpPlus || s.tok = .OpMinus then do
      adv
      let right ← parseTerm fuel
      exprLoop fuel (mkApply2 (if s.tok = .OpPlus then "plus" else "minus") left right)
    else
      pure left

/-- `parseTerm`: `Factor (('*'|'/') Factor)*`, folded left. -/
def parseTerm : Nat → PM Elem
  | 0 => noFuel
  | fuel + 1 => do
    let left ← parseFactor fuel
    termLoop fuel left

/-- The `while` loop of `parseTerm`. -/
def termLoop : Nat → Elem → PM Elem
  | 0, _ => noFuel
  | fuel + 1, left => do
    let s ← peek
    if s.tok = .OpTimes || s.tok = .OpDivide then do
      adv
      let right ← parseFactor fuel
      termLoop fuel (mkApply2 (if s.tok = .OpTimes then "times" else "divide") left right)
    else
      pure left

/-- `parseFactor`: unary minus (right-recursive), a number with an
optional `\x7bunits: u\x7d` annotation, an identifier (plain or a
function call), a parenthesised expression, or a `sel` piecewise. -/
def parseFactor : Nat → PM Elem
  | 0 => noFuel
  | fuel + 1 => do
    let s ← peek
    if s.tok = .OpMinus then do
      adv
      let child ← parseFactor fuel
      pure (Elem.mk MATHML_NS "apply" [] [mkOp "minus", child] "")
    else if s.tok = .Number then do
      adv
      let s2 ← peek
      if s2.tok = .LBrace then do
        adv
        let s3 ← peek
        let uattrs ←
          if s3.val = "units" then do
            adv
            expectT .Colon
            let u ← expectValue .Identifier
            pure [Attr.mk CELLML_NS "cellml:units" u]
          else
            pure ([] : List Attr)
        braceSkip fuel
        expectT .RBrace
        pure (Elem.mk MATHML_NS "cn" uattrs [] s.val)
      else
        pure (Elem.mk MATHML_NS "cn" [] [] s.val)
    else if s.tok = .Identifier then do
      adv
      let s2 ← peek
      if s2.tok = .LParam then
        parseFunctionCall fuel s.val
      else
        pure (Elem.mk MATHML_NS "ci" [] [] s.val)
    else if s.tok = .LParam then do
      adv
      let e ← parseExpression fuel
      expectT .RParam
      pure e
    else if s.tok = .KwSel then
      parsePiecewise fuel
    else
      throwErr ("Unexpected token in math: " ++ s.val)

/-- The `while (token !== RBrace)` loop consuming leftover brace
content after a number's units annotation; like the source, it has
no end-of-input check. -/
def braceSkip : Nat → PM Unit
  | 0 => noFuel
  | fuel + 1 => do
    let s ← peek
    if s.tok ≠ .RBrace then do
      adv
      braceSkip fuel
    else
      pure ()

/-- `parseFunctionCall`: `ode(dep, indep)` desugars to
`apply(diff, bvar(indep), dep)`; any other name builds a generic
n-ary `apply(name, args…)`. -/
def parseFunctionCall (fuel : Nat) (funcName : String) : PM Elem :=
  match fuel with
  | 0 => noFuel
  | fuel + 1 => do
    expectT .LParam
    if funcName = "ode" then do
      let dep ← parseExpression fuel
      expectT .OpComma
      let indep ← parseExpression fuel
      expectT .RParam
      pure (Elem.mk MATHML_NS "apply" []
        [mkOp "diff", Elem.mk MATHML_NS "bvar" [] [indep] "", dep] "")
    else do
      let s ← peek
      let args ← if s.tok ≠ .RParam then argLoop fuel else pure []
      expectT .RParam
      pure (Elem.mk MATHML_NS "apply" [] (mkOp funcName :: args) "")

/-- The `do … while (comma)` argument loop of `parseFunctionCall`. -/
def argLoop : Nat → PM (List Elem)
  | 0 => noFuel
  | fuel + 1 => do
    let s ← peek
    if s.tok = .OpComma then adv else pure ()
    let e ← parseExpression fuel
    let s2 ← peek
    if s2.tok = .OpComma then do
      let rest ← argLoop fuel
      pure (e :: rest)
    else
      pure [e]

/-- `parsePiecewise`: `sel (case Condition ':' Expression ';')*
(otherwise ':' Expression ';')? endsel`, building `piecewise` with a
`piece(value, condition)` per case and an optional trailing
`otherwise(value)`. -/
def parsePiecewise : Nat → PM Elem
  | 0 => noFuel
  | fuel + 1 => do
    expectT .KwSel
    let pieces ← caseLoop fuel
    let s ← peek
    let oth ←
      if s.tok = .KwOtherwise then do
        expectT .KwOtherwise
        expectT .Colon
        let v ← parseExpression fuel
        expectT .SemiColon
        pure [Elem.mk MATHML_NS "otherwise" [] [v] ""]
      else
        pure ([] : List Elem)
    expectT .KwEndSel
    pure (Elem.mk MATHML_NS "piecewise" [] (pieces ++ oth) "")

/-- The `while (token === KwCase)` loop of `parsePiecewise`. -/
def caseLoop : Nat → PM (List Elem)
  | 0 => noFuel
  | fuel + 1 => do
    let s ← peek
    if s.tok = .KwCase then do
      expectT .KwCase
      let condition ← parseCondition fuel
      expectT .Colon
      let value ← parseExpression fuel
      expectT .SemiColon
      let rest ← caseLoop fuel
      pure (Elem.mk MATHML_NS "piece" [] [value, condition] "" :: rest)
    else
      pure []

end

/-- Append a freshly parsed equation `apply` to the component's
`math` block: `getElementsByTagNameNS(MATHML_NS, 'math')[0]` (in the
trees this parser builds, `math` elements only occur as direct
children of a component, so the first match is the first such
child), creating the `math` element when there is none yet. -/
def appendToFirstMath : List Elem → Elem → List Elem
  | [], _ => []
  | c :: cs, ap =>
    if c.ns = MATHML_NS && localOf c.tag = "math" then appendChild c ap :: cs
    else c :: appendToFirstMath cs ap

def addMathApply (comp ap : Elem) : Elem :=
  match comp with
  | .mk ns tag as cs tx =>
    if cs.any (fun c => c.ns = MATHML_NS && localOf c.tag = "math") then
      .mk ns tag as (appendToFirstMath cs ap) tx
    else
      .mk ns tag as (cs ++ [Elem.mk MATHML_NS "math" [] [ap] ""]) tx

/-- The `"start"` / `"start-end"` value of the source-line attribute. -/
def lineRangeStr (startLine endLine : Nat) : String :=
  Nat.repr startLine ++ (if endLine ≠ startLine then "-" ++ Nat.repr endLine else "")

/-- `parseMathEquation`: parses `Expression '=' Expression ';'`,
wraps it in `apply(eq, lhs, rhs)` tagged (when enabled) with the
source line span — the line of the equation's first token through
the scanner line after the right-hand side — and appends it to the
component's `math` block. -/
def parseMathEquation (opts : POpts) (fuel : Nat) (comp : Elem) : PM Elem := do
  let s0 ← peek
  let lhs ← parseExpression fuel
  expectT .OpAss
  let rhs ← parseExpression fuel
  let s1 ← peek
  let attrs :=
    if srcEnabled opts then [Attr.mk "" (srcName opts) (lineRangeStr s0.line s1.line)]
    else []
  let ap := Elem.mk MATHML_NS "apply" attrs [mkOp "eq", lhs, rhs] ""
  let comp2 := addMathApply comp ap
  expectT .SemiColon
  pure comp2

/-- The property loop of `parseVariable`; returns the
`(name, value)` pairs in source order. -/
def propLoop : Nat → PM (List (String × String))
  | 0 => noFuel
  | fuel + 1 => do
    let s ← peek
    if s.tok ≠ .RBrace && s.tok ≠ .EOF then do
      let prop ← expectValue .Identifier
      expectT .Colon
      let sv ← peek
      let val ←
        if sv.tok = .OpMinus then do
          adv
          let n ← expectValue .Number
          pure ("-" ++ n)
        else if sv.tok = .Number then
          expectValue .Number
        else
          expectValue .Identifier
      let s2 ← peek
      if s2.tok = .OpComma then adv else pure ()
      let rest ← propLoop fuel
      pure ((prop, val) :: rest)
    else
      pure []

/-- The property mapping of `parseVariable`: only `init` (stored as
`initial_value`) and `interface` are kept; other keys are dropped. -/
def applyProps (as : List Attr) : List (String × String) → List Attr
  | [] => as
  | (prop, val) :: rest =>
    if prop = "init" then applyProps (setAttr as "initial_value" val) rest
    else if prop = "interface" then applyProps (setAttr as "interface" val) rest
    else applyProps as rest

/-- `parseVariable`: `var Name ':' Units ('\x7b' props '\x7d')? ';'`. -/
def parseVariable (fuel : Nat) : PM Elem := do
  expectT .KwVar
  let name ← expectValue .Identifier
  expectT .Colon
  let units ← expectValue .Identifier
  let baseAttrs := setAttr (setAttr [] "name" name) "units" units
  let s ← peek
  let attrs ←
    if s.tok = .LBrace then do
      adv
      let props ← propLoop fuel
      expectT .RBrace
      pure (applyProps baseAttrs props)
    else
      pure baseAttrs
  expectT .SemiColon
  pure (Elem.mk CELLML_NS "variable" attrs [] "")

/-- The body loop of `parseComponent`: it only stops at `enddef`
(note: no end-of-input check, unlike the model-level loop). -/
def compLoop (opts : POpts) : Nat → Elem → PM Elem
  | 0, _ => noFuel
  | fuel + 1, comp => do
    let s ← peek
    if s.tok ≠ .KwEndDef then
      if s.tok = .KwVar then do
        let v ← parseVariable fuel
        compLoop opts fuel (appendChild comp v)
      else if s.tok = .Identifier || s.tok = .KwSel then do
        let comp2 ← parseMathEquation opts fuel comp
        compLoop opts fuel comp2
      else do
        adv
        compLoop opts fuel comp
    else
      pure comp

/-- `parseComponent`: `comp Name as (Variable | MathStatement)*
enddef ';'`, appended to the parent. -/
def parseComponent (opts : POpts) (fuel : Nat) (parent : Elem) : PM Elem := do
  expectT .KwComp
  let name ← expectValue .Identifier
  expectT .KwAs
  let comp0 := Elem.mk CELLML_NS "component" (setAttr [] "name" name) [] ""
  let comp ← compLoop opts fuel comp0
  expectT .KwEndDef
  expectT .SemiColon
  pure (appendChild parent comp)

/-- The consume-to-`enddef` loop of the placeholder `parseUnit`. -/
def unitSkip : Nat → PM Unit
  | 0 => noFuel
  | fuel + 1 => do
    let s ← peek
    if s.tok ≠ .KwEndDef && s.tok ≠ .EOF then do
      adv
      unitSkip fuel
    else
      pure ()

/-- `parseUnit`: a placeholder that consumes the unit definition up
to `enddef ';'` and builds nothing. -/
def parseUnit (fuel : Nat) : PM Unit := do
  expectT .KwUnit
  unitSkip fuel
  expectT .KwEndDef
  expectT .SemiColon

/-- `parseBlock`: `def (Component | Unit)`. -/
def parseBlock (opts : POpts) (fuel : Nat) (parent : Elem) : PM Elem := do
  expectT .KwDef
  let s ← peek
  if s.tok = .KwComp then
    parseComponent opts fuel parent
  else if s.tok = .KwUnit then do
    parseUnit fuel
    pure parent
  else
    throwErr "Expected 'comp' or 'unit' after 'def'"

/-- The model body loop of `parse`: runs until `enddef` or end of
input, parsing `def` blocks and skipping stray tokens. -/
def modelLoop (opts : POpts) : Nat → Elem → PM Elem
  | 0, _ => noFuel
  | fuel + 1, root => do
    let s ← peek
    if s.tok ≠ .KwEndDef && s.tok ≠ .EOF then
      if s.tok = .KwDef then do
        let root2 ← parseBlock opts fuel root
        modelLoop opts fuel root2
      else do
        adv
        modelLoop opts fuel root
    else
      pure root

/-- The tree-building body of `parse` of CellMLTextParser.ts:
`def model Name? as Block* enddef ';'`, returning the `model`
element. -/
def parseModel (opts : POpts) (fuel : Nat) : PM Elem := do
  expectT .KwDef
  expectT .KwModel
  let s ← peek
  let rootAttrs ←
    if s.tok = .Identifier then do
      adv
      pure (setAttr [] "name" s.val)
    else
      pure []
  expectT .KwAs
  let root ← modelLoop opts fuel (Elem.mk CELLML_NS "model" rootAttrs [] "")
  expectT .KwEndDef
  expectT .SemiColon
  pure root

/-- Two-space indentation per nesting level. -/
def indentStr (level : Nat) : String :=
  String.join (List.replicate level "  ")

/-- The attribute section of a serialized tag: attributes in tree
order, each rendered as ` name="value"`, except the source-line
attribute, which is always skipped (when source tracking is
enabled) — the `continue` in the serializer's attribute loop. -/
def serializeAttrs (opts : POpts) : List Attr → String
  | [] => ""
  | a :: as =>
    if srcEnabled opts && a.name = srcName opts then serializeAttrs opts as
    else " " ++ a.name ++ "=\"" ++ a.value ++ "\"" ++ serializeAttrs opts as

/- `serialize` of CellMLTextParser.ts: 2-space indent per level,
attributes in tree order minus the source-line attribute, `xmlns`
injection on `model` and `math` roots, self-closing tags for empty
nodes, single-line form for text-only nodes, nested multi-line form
otherwise. -/
mutual

def serialize (opts : POpts) : Elem → Nat → String
  | .mk _ tag as cs tx, level =>
    let indent := indentStr level
    let props0 := serializeAttrs opts as
    let props1 :=
      if localOf tag = "model" && !hasAttr as "xmlns" then
        props0 ++ " xmlns=\"" ++ CELLML_NS ++ "\""
      else props0
    let props :=
      if localOf tag = "math" && !hasAttr as "xmlns" then
        props1 ++ " xmlns=\"" ++ MATHML_NS ++ "\" xmlns:cellml=\"" ++ CELLML_NS ++ "\""
      else props1
    if cs.isEmpty && tx = "" then
      indent ++ "<" ++ tag ++ props ++ "/>"
    else if cs.isEmpty then
      indent ++ "<" ++ tag ++ props ++ ">" ++ trimStr tx ++ "</" ++ tag ++ ">"
    else
      indent ++ "<" ++ tag ++ props ++ ">\n" ++ serializeL opts cs (level + 1) ++
        indent ++ "</" ++ tag ++ ">"

def serializeL (opts : POpts) : List Elem → Nat → String
  | [], _ => ""
  | c :: cs, level => serialize opts c level ++ "\n" ++ serializeL opts cs level

end

/-- `ParserResult` of CellMLTextParser.ts. -/
structure ParserResult where
  xml : Option String
  errors : List PErr
  deriving DecidableEq, Repr

/-- `parse` of CellMLTextParser.ts: builds the model tree and
serializes it behind an XML declaration, or catches the first thrown
syntax error as a single `\x7bline, message\x7d` entry.  `none`
models a run that exhausts its fuel — that is, a TypeScript run that
has not returned. -/
def parse (opts : POpts) (fuel : Nat) (text : String) : Option ParserResult :=
  match parseModel opts fuel (Scan.initScan text) with
  | .nofuel => none
  | .err e => some ⟨none, [e]⟩
  | .ok root _ =>
    some ⟨some ("<?xml version=\"1.0\" encoding=\"UTF-8\"?>\n" ++ serialize opts root 0), []⟩

end Parser

namespace TextGen

def CELLML_2_0_NS : String := "http://www.cellml.org/cellml/2.0#"

def MATHML_NS : String := "http://www.w3.org/1998/Math/MathML"

/-- `options.tabSize` is left at its default, so `standardIndent` is
two spaces. -/
def tabStr : String := "  "

def ind (level : Nat) : String := String.join (List.replicate level tabStr)

/-- JavaScript template interpolation of a possibly-`null` attribute
value (`null` prints as the string `"null"`). -/
def showAttrJS (o : Option String) : String :=
  match o with
  | some v => v
  | none => "null"

/-- `e.getAttribute(name) || fallback`-style truthy lookup: `null`
and the empty string count as absent. -/
def getAttrT (e : Elem) (name : String) : Option String :=
  match e.getAttr name with
  | some v => if v = "" then none else some v
  | none => none

def joinSep (sep : String) : List String → String
  | [] => ""
  | [s] => s
  | s :: rest => s ++ sep ++ joinSep sep rest

def argD (args : List String) (n : Nat) : String :=
  (args.get? n).getD "undefined"

/- The MathML walk of CellMLTextGenerator.ts (`parseMathNode`,
`parseApply`, `parsePiecewise`).  The walk may step from a node to a
grandchild (inside `piece`), so it is written with explicit fuel;
the wrappers below instantiate the fuel with `sizeE`, which
dominates the tree depth, so the 0-fuel default is unreachable.
`parsePiecewise` reads `this.indent()`; the generator's indent level
is always 2 while statements are rendered (model → component →
math), so it is a constant here. -/
mutual

def parseMathNodeG : Nat → Option Elem → String
  | 0, _ => ""
  | _ + 1, none => ""
  | fuel + 1, some e =>
    let tag := localOf e.tag
    if tag = "apply" then parseApplyG fuel e
    else if tag = "ci" then trimStr (textAll e)
    else if tag = "cn" then
      -- The `type="e-notation"` reassembly of mantissa/`sep`/exponent
      -- children concerns mixed text-and-element content, which this
      -- element model cannot represent and the parser never builds;
      -- it is omitted here.
      let v0 := trimStr (textAll e)
      let value := if v0 = "" then "0" else v0
      match getAttrNS e.attrs CELLML_2_0_NS "units" with
      | some u => if u ≠ "" then value ++ " \x7bunits: " ++ u ++ "\x7d" else value
      | none => value
    else if tag = "piecewise" then parsePiecewiseG fuel e
    else if tag = "pi" then "pi"
    else if tag = "bvar" then ""
    else "/* Unsupported MathML node: " ++ tag ++ " */"

def parseApplyG : Nat → Elem → String
  | 0, _ => ""
  | fuel + 1, e =>
    match e.children with
    | [] => ""
    | opE :: rest =>
      let op := localOf opE.tag
      let args := rest.map (fun c => parseMathNodeG fuel (some c))
      if op = "plus" then "(" ++ joinSep " + " args ++ ")"
      else if op = "minus" then
        if args.length = 1 then "-" ++ argD args 0
        else "(" ++ argD args 0 ++ " - " ++ argD args 1 ++ ")"
      else if op = "times" then "(" ++ joinSep " * " args ++ ")"
      else if op = "divide" then "(" ++ argD args 0 ++ " / " ++ argD args 1 ++ ")"
      else if op = "eq" then argD args 0 ++ " == " ++ argD args 1
      else if op = "neq" then argD args 0 ++ " != " ++ argD args 1
      else if op = "lt" then argD args 0 ++ " < " ++ argD args 1
      else if op = "leq" then argD args 0 ++ " <= " ++ argD args 1
      else if op = "gt" then argD args 0 ++ " > " ++ argD args 1
      else if op = "geq" then argD args 0 ++ " >= " ++ argD args 1
      else if op = "and" then joinSep " and " args
      else if op = "or" then joinSep " or " args
      else if op = "diff" then
        let bvar := e.children.find? (fun c => localOf c.tag = "bvar")
        let dependent := e.children.find? (fun c => localOf c.tag ≠ "diff" && localOf c.tag ≠ "bvar")
        let indep :=
          match bvar with
          | some b =>
            let t := match b.children.head? with
                     | some g => textAll g
                     | none => ""
            if t = "" then "t" else t
          | none => "t"
        let dep :=
          match dependent with
          | some d => parseMathNodeG fuel (some d)
          | none => "unknown"
        "ode(" ++ dep ++ ", " ++ indep ++ ")"
      else if op = "sin" || op = "cos" || op = "tan" || op = "exp" || op = "ln" || op = "log" then
        op ++ "(" ++ argD args 0 ++ ")"
      else if op = "root" then "sqrt(" ++ argD args 0 ++ ")"
      else op ++ "(" ++ joinSep ", " args ++ ")"

def parsePiecewiseG : Nat → Elem → String
  | 0, _ => ""
  | fuel + 1, e =>
    let pieces := pieceLines fuel e.children
    "sel\n" ++ ind 2 ++ joinSep ("\n" ++ ind 2) pieces ++ "\n" ++ ind 2 ++ "endsel"

def pieceLines : Nat → List Elem → List String
  | 0, _ => []
  | _ + 1, [] => []
  | fuel + 1, c :: cs =>
    let this_ :=
      if localOf c.tag = "piece" then
        let v := parseMathNodeG fuel (c.children.get? 0)
        let cond := parseMathNodeG fuel (c.children.get? 1)
        [tabStr ++ "case " ++ cond ++ ": " ++ v ++ ";"]
      else if localOf c.tag = "otherwise" then
        let v := parseMathNodeG fuel (c.children.get? 0)
        [tabStr ++ "otherwise: " ++ v ++ ";"]
      else []
    this_ ++ pieceLines fuel cs

end

/-- `parseMathNode` with an always-sufficient fuel bound (every call
in the mutual walk above either descends into a distinct node or
steps once through a child list of distinct nodes, and each node of
the tree is visited by at most three of those calls). -/
def parseMathNode (o : Option Elem) : String :=
  parseMathNodeG (match o with | some e => 3 * sizeE e + 3 | none => 1) o

/-- One statement line of `processMath`: a top-level `apply` whose
first child is `eq` prints as `lhs = rhs;`; any other expression
prints alone (when non-empty) followed by `;`. -/
def statementLine (child : Elem) : String :=
  let isEquation :=
    localOf child.tag = "apply" &&
      (match child.children.head? with
       | some f => localOf f.tag = "eq"
       | none => false)
  if isEquation then
    let args := child.children.drop 1
    let lhs := parseMathNode (args.get? 0)
    let rhs := parseMathNode (args.get? 1)
    ind 2 ++ lhs ++ " = " ++ rhs ++ ";\n"
  else
    let expr := parseMathNode (some child)
    if expr ≠ "" then ind 2 ++ expr ++ ";\n" else ""

/-- `processMath` of CellMLTextGenerator.ts. -/
def processMath (m : Elem) : String :=
  String.join (m.children.map statementLine)

/-- `processVariable`: `var name: units \x7binit: …, interface: …\x7d;`
with each attribute included only when present and truthy. -/
def processVariable (v : Elem) : String :=
  let name := showAttrJS (v.getAttr "name")
  let units := showAttrJS (v.getAttr "units")
  let initial := getAttrT v "initial_value"
  let inf := getAttrT v "interface"
  let attributes :=
    (match initial with | some i => ["init: " ++ i] | none => []) ++
      (match inf with | some i => ["interface: " ++ i] | none => [])
  let line :=
    "var " ++ name ++ ": " ++ units ++
      (if attributes.length > 0 then " \x7b" ++ joinSep ", " attributes ++ "\x7d" else "") ++ ";"
  ind 2 ++ line ++ "\n"

/-- One `unit …;` line of `processUnits`, with the optional
prefix/exponent/multiplier annotations in that fixed order. -/
def unitLine (u : Elem) : String :=
  let pfx := getAttrT u "prefix"
  let unitsRef := u.getAttr "units"
  let exponent := getAttrT u "exponent"
  let multiplier := getAttrT u "multiplier"
  let line :=
    "unit " ++ showAttrJS unitsRef ++
      (match pfx with | some p => " \x7bprefix: " ++ p ++ "\x7d" | none => "") ++
      (match exponent with | some x => " \x7bexponent: " ++ x ++ "\x7d" | none => "") ++
      (match multiplier with | some x => " \x7bmultiplier: " ++ x ++ "\x7d" | none => "") ++ ";"
  ind 2 ++ line ++ "\n"

/-- `processUnits` of CellMLTextGenerator.ts (`getElementsByTagName`
collects all descendants with the given tag). -/
def processUnits (u : Elem) : String :=
  let name := (getAttrT u "name").getD "unnamed_units"
  ind 1 ++ "def unit " ++ name ++ " as\n" ++
    String.join (((descendants u).filter (fun c => c.tag = "unit")).map unitLine) ++
    ind 1 ++ "enddef;\n" ++ ind 1 ++ "\n"

/-- `processComponent` of CellMLTextGenerator.ts. -/
def processComponent (c : Elem) : String :=
  let name := (getAttrT c "name").getD "unnamed_component"
  ind 1 ++ "def comp " ++ name ++ " as\n" ++
    String.join (((descendants c).filter (fun v => v.tag = "variable")).map processVariable) ++
    String.join
      (((descendants c).filter (fun m => m.ns = MATHML_NS && localOf m.tag = "math")).map
        processMath) ++
    ind 1 ++ "enddef;\n" ++ ind 1 ++ "\n"

/-- JS `trimEnd` restricted to the ASCII whitespace characters. -/
def trimEndStr (s : String) : String :=
  String.mk ((s.data.reverse.dropWhile Scan.isWs).reverse)

/-- `processModel` of CellMLTextGenerator.ts: header, the `units`
blocks that are direct children of the model, then every
`component` descendant; the output is trimmed to exactly one
trailing newline before `enddef;`. -/
def processModel (m : Elem) : String :=
  let name := (getAttrT m "name").getD "unnamed_model"
  let body :=
    "def model " ++ name ++ " as\n" ++
      String.join ((m.children.filter (fun c => c.tag = "units")).map processUnits) ++
      String.join (((descendants m).filter (fun c => c.tag = "component")).map processComponent)
  trimEndStr body ++ "\n" ++ "enddef;\n"

/-- `generate` of CellMLTextGenerator.ts.  The browser `DOMParser`
that turns the XML string into a document is external to the
repository; it is abstracted as the `Option Elem` input, `none`
standing for an XML parse failure (a `parsererror` result).  Both
failure branches return the single-line error comment the `catch`
produces. -/
def generate (doc : Option Elem) : String :=
  match doc with
  | none => "// Error generating text: XML Parsing Error"
  | some d =>
    match findNS CELLML_2_0_NS "model" d with
    | none => "// Error generating text: No CellML 2.0 Model found"
    | some m => processModel m

end TextGen

namespace LatexGen

/-- The `PRECEDENCE` table of the LaTeX generator. -/
def precLookup (op : String) : Option Nat :=
  if op = "atomic" then some 100
  else if op = "func" then some 90
  else if op = "power" then some 80
  else if op = "times" then some 70
  else if op = "divide" then some 70
  else if op = "plus" then some 60
  else if op = "minus" then some 60
  else if op = "rel" then some 50
  else if op = "unknown" then some 0
  else none

/-- `PRECEDENCE[op] || PRECEDENCE.func!`: a missing entry — which is
what every actual MathML operator tag other than the arithmetic ones
hits — and the falsy `unknown` entry both fall back to 90. -/
def precOf (op : String) : Nat :=
  match precLookup op with
  | some n => if n = 0 then 90 else n
  | none => 90

/-- The 24-entry Greek-name table of `escapeGreek`. -/
def greekNames : List String :=
  ["alpha", "beta", "gamma", "delta", "epsilon", "zeta", "eta", "theta",
   "iota", "kappa", "lambda", "mu", "nu", "xi", "omicron", "pi",
   "rho", "sigma", "tau", "upsilon", "phi", "chi", "psi", "omega"]

def toLowerStr (s : String) : String :=
  String.mk (s.data.map Char.toLower)

/-- `escapeGreek`: `\name` on an exact case-insensitive match, else
unchanged. -/
def escapeGreek (text : String) : String :=
  if greekNames.contains (toLowerStr text) then "\\" ++ text else text

/-- JS `name.split('_')` (empty parts preserved). -/
def splitU : List Char → List (List Char)
  | [] => [[]]
  | c :: cs =>
    if c = '_' then [] :: splitU cs
    else
      match splitU cs with
      | h :: t => (c :: h) :: t
      | [] => [[c]]

/-- A part of the split identifier, `parts[i] || ''`. -/
def partD (parts : List String) (i : Nat) : String :=
  (parts.get? i).getD ""

/-- `parseIdentifier` of the LaTeX generator: base, subscript and
superscript blocks assembled from the `_`-separated parts. -/
def parseIdentifier (name : String) : String :=
  if !name.data.contains '_' then escapeGreek name
  else
    let parts := (splitU name.data).map String.mk
    let base := escapeGreek (partD parts 0)
    let subParts0 :=
      (if partD parts 1 ≠ "" then [partD parts 1] else []) ++
        (if parts.length > 4 then parts.drop 4 else [])
    let subParts1 :=
      if parts.length = 3 && (partD parts 2).length = 1 then
        subParts0 ++ [escapeGreek (partD parts 2)]
      else subParts0
    let superBlock :=
      if parts.length = 3 && (partD parts 2).length = 1 then ""
      else if partD parts 2 ≠ "" then
        escapeGreek (partD parts 2) ++
          (if partD parts 3 ≠ "" then "_\x7b" ++ escapeGreek (partD parts 3) ++ "\x7d" else "")
      else ""
    let subBlock := TextGen.joinSep "," (subParts1.map escapeGreek)
    base ++
      (if subBlock ≠ "" then "_\x7b" ++ subBlock ++ "\x7d" else "") ++
      (if superBlock ≠ "" then "^\x7b" ++ superBlock ++ "\x7d" else "")

def startsWithMinus (s : String) : Bool :=
  match (trimStr s).data with
  | c :: _ => c = '-'
  | [] => false

/-- The per-argument context precedence of `parseApply`: arguments of
the visually self-delimiting forms reset to 0; the right operand of
`minus` (index 1) is bumped to one above `minus`'s own precedence. -/
def childPrec (op : String) (myPrec : Nat) (index : Nat) : Nat :=
  if op = "divide" || op = "diff" || op = "root" || op = "sqrt" || op = "sin" ||
      op = "cos" || op = "tan" || op = "exp" || op = "ln" || op = "log" then 0
  else if op = "minus" && index = 1 then myPrec + 1
  else myPrec

def argD (args : List String) (n : Nat) : String :=
  (args.get? n).getD "undefined"

def mapIdx (f : Nat → Elem → String) : Nat → List Elem → List String
  | _, [] => []
  | i, c :: cs => f i c :: mapIdx f (i + 1) cs

/- `parseNode` / `parseApply` / `parsePiecewise` of the LaTeX
generator, with explicit fuel (the walk steps to grandchildren
inside `piece`/`bvar`, so the wrappers instantiate the fuel with
`sizeE`, which dominates the tree depth). -/
mutual

def parseNodeL : Nat → Option Elem → Nat → String
  | 0, _, _ => ""
  | _ + 1, none, _ => ""
  | fuel + 1, some e, contextPrecedence =>
    let tag := localOf e.tag
    if tag = "apply" then parseApplyL fuel e contextPrecedence
    else if tag = "ci" then parseIdentifier (textAll e)
    else if tag = "cn" then (if textAll e = "" then "0" else textAll e)
    else if tag = "piecewise" then parsePiecewiseL fuel e
    else if tag = "pi" then "\\pi"
    else if tag = "bvar" then ""
    else ""

def parseApplyL : Nat → Elem → Nat → String
  | 0, _, _ => ""
  | fuel + 1, e, parentPrecedence =>
    let children := e.children
    let op :=
      match children.head? with
      | some h => if localOf h.tag = "" then "unknown" else localOf h.tag
      | none => "unknown"
    let myPrecedence := precOf op
    let args := mapIdx (fun i c => parseNodeL fuel (some c) (childPrec op myPrecedence i)) 0
      (children.drop 1)
    let latex :=
      if op = "plus" then TextGen.joinSep " + " args
      else if op = "minus" then
        if args.length = 1 then "-" ++ argD args 0
        else argD args 0 ++ " - " ++ argD args 1
      else if op = "times" then TextGen.joinSep " \\cdot " args
      else if op = "divide" then "\\frac\x7b" ++ argD args 0 ++ "\x7d\x7b" ++ argD args 1 ++ "\x7d"
      else if op = "eq" then argD args 0 ++ " == " ++ argD args 1
      else if op = "neq" then argD args 0 ++ " \\neq " ++ argD args 1
      else if op = "lt" then argD args 0 ++ " < " ++ argD args 1
      else if op = "leq" then argD args 0 ++ " \\leq " ++ argD args 1
      else if op = "gt" then argD args 0 ++ " > " ++ argD args 1
      else if op = "geq" then argD args 0 ++ " \\geq " ++ argD args 1
      else if op = "and" then TextGen.joinSep " \\land " args
      else if op = "or" then TextGen.joinSep " \\lor " args
      else if op = "power" then
        let baseString := argD args 0
        let expString := argD args 1
        let isAtomic :=
          match children.get? 1 with
          | some b => localOf b.tag = "ci" || (localOf b.tag = "cn" && !startsWithMinus baseString)
          | none => false
        if isAtomic then "\x7b" ++ baseString ++ "\x7d^\x7b" ++ expString ++ "\x7d"
        else "\\left(\x7b" ++ baseString ++ "\x7d\\right)^\x7b" ++ expString ++ "\x7d"
      else if op = "root" || op = "sqrt" then "\\sqrt\x7b" ++ argD args 0 ++ "\x7d"
      else if op = "diff" then
        let bvar := children.find? (fun c => localOf c.tag = "bvar")
        let dep := children.find? (fun c => localOf c.tag ≠ "diff" && localOf c.tag ≠ "bvar")
        let indepStr :=
          match bvar with
          | some b => parseNodeL fuel b.children.head? 0
          | none => "x"
        let depStr :=
          match dep with
          | some d => parseNodeL fuel (some d) 0
          | none => "y"
        "\\frac\x7bd" ++ depStr ++ "\x7d\x7bd" ++ indepStr ++ "\x7d"
      else if op = "exp" then "e^\x7b" ++ argD args 0 ++ "\x7d"
      else if op = "abs" then "\\left|" ++ argD args 0 ++ "\\right|"
      else if op = "floor" then "\\lfloor " ++ argD args 0 ++ " \\rfloor"
      else if op = "ceil" then "\\lceil " ++ argD args 0 ++ " \\rceil"
      else if op = "cos" || op = "cosh" || op = "log10" || op = "log" || op = "ln" ||
          op = "max" || op = "min" || op = "sin" || op = "sinh" || op = "tan" ||
          op = "tanh" then
        "\\" ++ op ++ "\\left(" ++ argD args 0 ++ "\\right)"
      else "\\text\x7b" ++ op ++ "\x7d(" ++ TextGen.joinSep ", " args ++ ")"
    if myPrecedence < parentPrecedence then "\\left(" ++ latex ++ "\\right)"
    else latex

def parsePiecewiseL : Nat → Elem → String
  | 0, _ => ""
  | fuel + 1, e =>
    "\\begin\x7bcases\x7d " ++ piecewiseContent fuel e.children ++ " \\end\x7bcases\x7d"

def piecewiseContent : Nat → List Elem → String
  | 0, _ => ""
  | _ + 1, [] => ""
  | fuel + 1, c :: cs =>
    let this_ :=
      if localOf c.tag = "piece" then
        let v := parseNodeL fuel (c.children.get? 0) 0
        let cond := parseNodeL fuel (c.children.get? 1) 0
        v ++ " & \\text\x7bif \x7d " ++ cond ++ " \\\\ "
      else if localOf c.tag = "otherwise" then
        let v := parseNodeL fuel (c.children.get? 0) 0
        v ++ " & \\text\x7botherwise\x7d"
      else ""
    this_ ++ piecewiseContent fuel cs

end

/-- `parseNode` with an always-sufficient fuel bound (each node of
the tree is visited by at most three calls of the mutual walk above)
and the default context precedence 0. -/
def parseNode (o : Option Elem) (ctx : Nat) : String :=
  parseNodeL (match o with | some e => 3 * sizeE e + 3 | none => 1) o ctx

/-- `convert` of the LaTeX generator: a `math` wrapper maps `convert`
over its children joined by newline; a top-level `apply(eq, …)` is
special-cased to `lhs = rhs`; anything else goes to `parseNode`. -/
def convertF : Nat → Elem → String
  | 0, _ => ""
  | fuel + 1, e =>
    if localOf e.tag = "math" then
      TextGen.joinSep "\n" (e.children.map (convertF fuel))
    else if localOf e.tag = "apply" &&
        (match e.children.head? with
         | some f => localOf f.tag = "eq"
         | none => false) then
      let lhs := parseNode (e.children.get? 1) 0
      let rhs := parseNode (e.children.get? 2) 0
      lhs ++ " = " ++ rhs
    else
      parseNode (some e) 0

def convert (e : Elem) : String :=
  convertF (sizeE e + 1) e

end LatexGen

/- ------------------------------------------------------------------
   Derived observers used by the claims below.
   ------------------------------------------------------------------ -/

/-- The element tree `parse` builds (and then serializes): `some`
root on success, `none` on a syntax error or fuel exhaustion. -/
def parseTreeOf (opts : Parser.POpts) (fuel : Nat) (t : String) : Option Elem :=
  match Parser.parseModel opts fuel (Scan.initScan t) with
  | .ok root _ => some root
  | _ => none

/-- The expression tree `parseExpression` builds on an input. -/
def exprTreeOf (fuel : Nat) (t : String) : Option Elem :=
  match Parser.parseExpression fuel (Scan.initScan t) with
  | .ok e _ => some e
  | _ => none

/-- The token stream of an input: the scanner run to end of input
(with fuel bounding the number of tokens).  Two texts that differ
only in whitespace, comments and formatting have equal token
streams. -/
def tokensF : Nat → Scan.ScanState → List (Tok × String)
  | 0, _ => []
  | fuel + 1, s =>
    if s.tok = .EOF then []
    else (s.tok, s.val) :: tokensF fuel (Scan.advance s)

def tokensOf (fuel : Nat) (t : String) : List (Tok × String) :=
  tokensF fuel (Scan.initScan t)

/-- Remove every attribute with the given qualified name. -/
def stripAttrs (name : String) (as : List Attr) : List Attr :=
  as.filter (fun a => a.name ≠ name)

/- Remove every attribute with the given qualified name, everywhere
in a tree (used to compare parsed trees modulo the source-line
annotation, and to state that serialization ignores it). -/
mutual

def stripE (name : String) : Elem → Elem
  | .mk ns tag as cs tx => .mk ns tag (stripAttrs name as) (stripEL name cs) tx

def stripEL (name : String) : List Elem → List Elem
  | [] => []
  | c :: cs => stripE name c :: stripEL name cs

end

/-- `e.children[n]`. -/
def childAt (n : Nat) (e : Elem) : Option Elem :=
  e.children.get? n


/- ------------------------------------------------------------------
   Inversion lemmas for the parser effect.
   ------------------------------------------------------------------ -/

theorem bind_def {α β : Type} (m : Parser.PM α) (f : α → Parser.PM β) :
    m >>= f = Parser.pmBind m f := rfl

theorem pure_def {α : Type} (a : α) : (pure a : Parser.PM α) = Parser.pmPure a := rfl

theorem pmBind_ok_iff {α β : Type} {m : Parser.PM α} {f : α → Parser.PM β}
    {s s2 : Scan.ScanState} {b : β} :
    Parser.pmBind m f s = .ok b s2 ↔ ∃ a s1, m s = .ok a s1 ∧ f a s1 = .ok b s2 := by
  unfold Parser.pmBind
  cases h : m s with
  | ok a s1 =>
    constructor
    · intro hf
      exact ⟨a, s1, rfl, hf⟩
    · rintro ⟨a2, s3, ha, hf⟩
      cases ha
      exact hf
  | err e =>
    constructor
    · intro hf
      cases hf
    · rintro ⟨a2, s3, ha, hf⟩
      cases ha
  | nofuel =>
    constructor
    · intro hf
      cases hf
    · rintro ⟨a2, s3, ha, hf⟩
      cases ha

theorem pmPure_ok_iff {α : Type} {a b : α} {s s2 : Scan.ScanState} :
    Parser.pmPure a s = .ok b s2 ↔ b = a ∧ s2 = s := by
  unfold Parser.pmPure
  constructor
  · intro h
    cases h
    exact ⟨rfl, rfl⟩
  · rintro ⟨rfl, rfl⟩
    rfl

theorem noFuel_ne_ok {α : Type} {a : α} {s s2 : Scan.ScanState} :
    Parser.noFuel s ≠ Parser.PRes.ok a s2 := by
  unfold Parser.noFuel
  intro h
  cases h

/- ------------------------------------------------------------------
   Concrete programs and trees used by the claims.
   ------------------------------------------------------------------ -/

def ciM (s : String) : Elem := Elem.mk Parser.MATHML_NS "ci" [] [] s

def cnM (s : String) : Elem := Elem.mk Parser.MATHML_NS "cn" [] [] s

def opM (tag : String) : Elem := Elem.mk Parser.MATHML_NS tag [] [] ""

def apM (tag : String) (l r : Elem) : Elem :=
  Elem.mk Parser.MATHML_NS "apply" [] [opM tag, l, r] ""

/-- A well-formed program with a variable and an arithmetic equation. -/
def tProg : String :=
  "def model m as\ndef comp c as\nvar a: mv \x7binit: 10\x7d;\nx = a + b * c;\nenddef;\nenddef;"

/-- An invalid program: the `var` on line 3 is not followed by an
identifier. -/
def tBadVar : String := "def model m as\ndef comp c as\nvar : x;\nenddef;\nenddef;"

/-- A program whose equation spans lines 3 and 4. -/
def tTwoLine : String := "def model m as\ndef comp c as\nx =\ny;\nenddef;\nenddef;"

/-- A program whose equation sits entirely on line 3. -/
def tOneLine : String := "def model m as\ndef comp c as\nx = y;\nenddef;\nenddef;"

/-- A well-formed program containing a unit definition block. -/
def tUnitProg : String := "def model m as\ndef unit foo as\nenddef;\nenddef;"

/-- A minimal program whose equation the generator parenthesises. -/
def tParen : String := "def model m as\ndef comp c as\nx = a + b;\nenddef;\nenddef;"

/-- The generated text of a program: parse it to a tree, then run the
text generator on that tree (the external XML parse between
`parse`'s string output and `generate`'s document input is the
abstracted identity on the tree). -/
def genTextOf (fuel : Nat) (t : String) : Option String :=
  (parseTreeOf Parser.defaultOpts fuel t).map (fun r => TextGen.generate (some r))

/-- Parse, generate and reparse. -/
def reparseOf (fuel : Nat) (t : String) : Option Elem :=
  (genTextOf fuel t).bind (fun txt => parseTreeOf Parser.defaultOpts fuel txt)

/-- Piecewise programs: two cases plus `otherwise`, and a single case
without `otherwise`. -/
def tPw1 : String :=
  "def model m as\ndef comp c as\nx = sel case y > 1: 1; case y > 2: 2; otherwise: 3; endsel;\nenddef;\nenddef;"

def tPw2 : String :=
  "def model m as\ndef comp c as\nx = sel case y > 1 and y < 9: 5 \x7bunits: mv\x7d; endsel;\nenddef;\nenddef;"

/-- The piecewise node of the (single) equation of such a program:
model → component → math → apply, third operand of `eq`. -/
def pwOf (r : Option Elem) : Option Elem :=
  (((r.bind (childAt 0)).bind (childAt 0)).bind (childAt 0)).bind (childAt 2)

/-- The piecewise tree the parser builds from `tPw1`: one `piece`
per case — value first, condition second — then the trailing
`otherwise`. -/
def pw1Tree : Elem :=
  Elem.mk Parser.MATHML_NS "piecewise" []
    [Elem.mk Parser.MATHML_NS "piece" [] [cnM "1", apM "gt" (ciM "y") (cnM "1")] "",
     Elem.mk Parser.MATHML_NS "piece" [] [cnM "2", apM "gt" (ciM "y") (cnM "2")] "",
     Elem.mk Parser.MATHML_NS "otherwise" [] [cnM "3"] ""] ""

/-- The piecewise tree the parser builds from `tPw2`: a single
`piece` (value with units annotation first, `and`-condition second),
no `otherwise`. -/
def pw2Tree : Elem :=
  Elem.mk Parser.MATHML_NS "piecewise" []
    [Elem.mk Parser.MATHML_NS "piece" []
      [Elem.mk Parser.MATHML_NS "cn" [⟨Parser.CELLML_NS, "cellml:units", "mv"⟩] [] "5",
       apM "and" (apM "gt" (ciM "y") (cnM "1")) (apM "lt" (ciM "y") (cnM "9"))] ""] ""

/-- The MathML tree `minus(a, minus(b, c))`. -/
def minusNest : Elem := apM "minus" (ciM "a") (apM "minus" (ciM "b") (ciM "c"))

/-- An element with no CellML 2.0 `model` anywhere. -/
def noModelElem : Elem := Elem.mk "urn:other" "foo" [] [Elem.mk "urn:other" "bar" [] [] ""] ""

/-- A program whose equation calls the built-in name `root`: the
parser builds a generic `apply(root, a)` node, but the generator
renders a `root` apply as `sqrt(...)`, so even the tree-level round
trip fails on it. -/
def tRoot : String := "def model m as\ndef comp c as\nx = root(a);\nenddef;\nenddef;"

/-- A program whose piecewise case value calls a function named
`eq`: the parser builds a generic `apply(eq, a, b)` node, but the
generator renders an `eq` apply as `a == b`, which is not a valid
case-value expression, so the regenerated text does not reparse. -/
def tPwEq : String :=
  "def model m as\ndef comp c as\nx = sel case y > 1: eq(a, b); endsel;\nenddef;\nenddef;"

/-- The input on which `parse` does not terminate: the component
body reaches end of input without a closing `enddef`. -/
def tNoEnddef : String := "def model m as def comp c as"

/-- The scanner state when `parseComponent`'s body loop starts on
`tNoEnddef`: end of input. -/
def sAtEOF : Scan.ScanState := ⟨[], 1, .EOF, "as"⟩

/-- The scanner state at the inner `def` of `tNoEnddef`. -/
def sAtInnerDef : Scan.ScanState := ⟨" comp c as".data, 1, .KwDef, "def"⟩

def model0 : Elem := Elem.mk Parser.CELLML_NS "model" (setAttr [] "name" "m") [] ""

def comp0 : Elem := Elem.mk Parser.CELLML_NS "component" (setAttr [] "name" "c") [] ""

/- ------------------------------------------------------------------
   Lemmas for the serializer's treatment of the source-line
   attribute (claim C5).
   ------------------------------------------------------------------ -/

theorem serializeAttrs_strip (opts : Parser.POpts) (h : Parser.srcEnabled opts = true)
    (as : List Attr) :
    Parser.serializeAttrs opts (stripAttrs (Parser.srcName opts) as) =
      Parser.serializeAttrs opts as := by
  induction as with
  | nil => rfl
  | cons a as ih =>
    by_cases hn : a.name = Parser.srcName opts
    · have h1 : stripAttrs (Parser.srcName opts) (a :: as) =
          stripAttrs (Parser.srcName opts) as := by
        simp [stripAttrs, List.filter_cons, hn]
      rw [h1, ih]
      conv_rhs => rw [Parser.serializeAttrs]
      rw [if_pos (by simp [h, hn])]
    · have h1 : stripAttrs (Parser.srcName opts) (a :: as) =
          a :: stripAttrs (Parser.srcName opts) as := by
        simp [stripAttrs, List.filter_cons, hn]
      rw [h1]
      conv_lhs => rw [Parser.serializeAttrs]
      conv_rhs => rw [Parser.serializeAttrs]
      rw [if_neg (by simp [hn]), if_neg (by simp [hn]), ih]

theorem getAttr_strip (n name : String) (hne : name ≠ n) (as : List Attr) :
    getAttr (stripAttrs n as) name = getAttr as name := by
  induction as with
  | nil => rfl
  | cons a as ih =>
    by_cases hn : a.name = n
    · have h1 : stripAttrs n (a :: as) = stripAttrs n as := by
        simp [stripAttrs, List.filter_cons, hn]
      have h2 : getAttr (a :: as) name = getAttr as name := by
        unfold getAttr
        rw [List.find?_cons_of_neg]
        simp only [decide_eq_true_eq]
        rw [hn]
        exact fun hc => hne hc.symm
      rw [h1, ih, h2]
    · have h1 : stripAttrs n (a :: as) = a :: stripAttrs n as := by
        simp [stripAttrs, List.filter_cons, hn]
      rw [h1]
      by_cases hd : a.name = name
      · unfold getAttr
        rw [List.find?_cons_of_pos _ (by simp [hd]), List.find?_cons_of_pos _ (by simp [hd])]
      · unfold getAttr
        rw [List.find?_cons_of_neg _ (by simp [hd]), List.find?_cons_of_neg _ (by simp [hd])]
        unfold getAttr at ih
        exact ih

theorem hasAttr_strip (n name : String) (hne : name ≠ n) (as : List Attr) :
    hasAttr (stripAttrs n as) name = hasAttr as name := by
  unfold hasAttr
  rw [getAttr_strip n name hne as]

theorem stripEL_isEmpty (n : String) (cs : List Elem) :
    (stripEL n cs).isEmpty = cs.isEmpty := by
  cases cs <;> rfl

mutual

theorem serialize_stripE (opts : Parser.POpts) (h1 : Parser.srcEnabled opts = true)
    (h2 : Parser.srcName opts ≠ "xmlns") :
    ∀ (e : Elem) (lvl : Nat),
      Parser.serialize opts (stripE (Parser.srcName opts) e) lvl = Parser.serialize opts e lvl
  | .mk ns tag as cs tx, lvl => by
    have hcs := serializeL_stripE opts h1 h2 cs (lvl + 1)
    simp only [stripE, Parser.serialize]
    rw [serializeAttrs_strip opts h1 as]
    rw [show hasAttr (stripAttrs (Parser.srcName opts) as) "xmlns" = hasAttr as "xmlns" from
      hasAttr_strip (Parser.srcName opts) "xmlns" (fun hc => h2 hc.symm) as]
    rw [stripEL_isEmpty]
    rw [hcs]

theorem serializeL_stripE (opts : Parser.POpts) (h1 : Parser.srcEnabled opts = true)
    (h2 : Parser.srcName opts ≠ "xmlns") :
    ∀ (cs : List Elem) (lvl : Nat),
      Parser.serializeL opts (stripEL (Parser.srcName opts) cs) lvl =
        Parser.serializeL opts cs lvl
  | [], _ => rfl
  | c :: cs, lvl => by
    simp only [stripEL, Parser.serializeL]
    rw [serialize_stripE opts h1 h2 c lvl, serializeL_stripE opts h1 h2 cs lvl]

end

/-- The component body loop spins forever at end of input: one
iteration takes the skip branch, `nextToken()` at end of input
returns the same scanner state, and the loop retries with one unit
of fuel less — so every finite fuel is exhausted. -/
theorem compLoop_eof_spins : ∀ (g : Nat) (comp : Elem),
    Parser.compLoop Parser.defaultOpts g comp sAtEOF = .nofuel := by
  intro g
  induction g with
  | zero => intro comp; rfl
  | succ g ih => intro comp; exact ih comp

/- ------------------------------------------------------------------
   Number-token shapes (claim C8): the shape the spec's sentence
   describes, the shape the scanner actually produces, and lemmas
   relating the scanner's number branch to both.
   ------------------------------------------------------------------ -/

/-- The exponent shapes the spec's sentence admits after the integer
and fraction parts: nothing, or `e`/`E`, an optional sign and a
nonempty digit run filling the rest of the token. -/
def specExpTail : List Char → Bool
  | [] => true
  | e :: t =>
    (e = 'e' || e = 'E') &&
      (match t with
       | '+' :: d => !d.isEmpty && d.all Char.isDigit
       | '-' :: d => !d.isEmpty && d.all Char.isDigit
       | d => !d.isEmpty && d.all Char.isDigit)

/-- The tail of a spec number after its integer part. -/
def specAfterInt (intPart rest : List Char) : Bool :=
  match rest with
  | '.' :: t =>
    !(t.takeWhile Char.isDigit).isEmpty && specExpTail (t.dropWhile Char.isDigit)
  | _ => !intPart.isEmpty && specExpTail rest

/-- The number-literal shape of the spec's sentence (claim C8): an
optional integer part, an optional `.` followed by a fraction part,
and an optional exponent of `e`/`E`, an optional sign and digits —
the fraction part and the exponent digits being actual digit runs.
This definition transliterates the spec's words, not the code, for
comparison with the scanner's behaviour. -/
def specNumber (s : String) : Bool :=
  specAfterInt (s.data.takeWhile Char.isDigit) (s.data.dropWhile Char.isDigit)

/-- The exponent shapes the scanner actually consumes: nothing, or
`e`/`E`, an optional sign and a possibly-empty digit run filling the
rest of the token. -/
def amendedExpTail : List Char → Bool
  | [] => true
  | e :: t =>
    (e = 'e' || e = 'E') &&
      (match t with
       | '+' :: d => d.all Char.isDigit
       | '-' :: d => d.all Char.isDigit
       | d => d.all Char.isDigit)

/-- The tail of an amended number after its integer part. -/
def amendedAfterInt (intPart rest : List Char) : Bool :=
  match rest with
  | '.' :: t =>
    (!intPart.isEmpty || !(t.takeWhile Char.isDigit).isEmpty) &&
      amendedExpTail (t.dropWhile Char.isDigit)
  | _ => !intPart.isEmpty && amendedExpTail rest

/-- The number-token shape the scanner actually produces (claim C8,
amended): a digit run, an optional `.` with a possibly-empty digit
run, and an optional `e`/`E` with an optional sign and a
possibly-empty digit run — at least one digit present in the integer
part or directly after the `.`. -/
def amendedNumber (s : String) : Bool :=
  amendedAfterInt (s.data.takeWhile Char.isDigit) (s.data.dropWhile Char.isDigit)

/-- A digit is not an ASCII letter. -/
theorem digit_not_alpha (c : Char) (h : c.isDigit = true) : c.isAlpha = false := by
  simp [Char.isDigit] at h
  simp [Char.isAlpha, Char.isUpper, Char.isLower]
  simp only [UInt32.le_def, BitVec.le_def] at *
  have e48 : (UInt32.toBitVec 48).toNat = 48 := rfl
  have e57 : (UInt32.toBitVec 57).toNat = 57 := rfl
  have e65 : (UInt32.toBitVec 65).toNat = 65 := rfl
  have e90 : (UInt32.toBitVec 90).toNat = 90 := rfl
  have e97 : (UInt32.toBitVec 97).toNat = 97 := rfl
  have e122 : (UInt32.toBitVec 122).toNat = 122 := rfl
  omega

/-- A digit is not one of the whitespace characters. -/
theorem digit_not_ws (c : Char) (h : c.isDigit = true) : Scan.isWs c = false := by
  cases hx : Scan.isWs c
  · rfl
  · exfalso
    simp only [Scan.isWs, Bool.or_eq_true, decide_eq_true_eq] at hx
    rcases hx with ((((h1 | h1) | h1) | h1) | h1) | h1 <;> subst h1 <;> exact absurd h (by decide)

/-- A digit is not `'/'`, `'_'` or `'.'`. -/
theorem digit_ne (c : Char) (h : c.isDigit = true) :
    c ≠ '/' ∧ c ≠ '_' ∧ c ≠ '.' := by
  refine ⟨?_, ?_, ?_⟩ <;> intro he <;> subst he <;> exact absurd h (by decide)

/-- A digit or a `'.'` is not scanned as identifier, whitespace or
comment: the facts needed to steer `scanStep` into its number
branch. -/
theorem number_start_facts (c : Char) (cs : List Char)
    (h : (c.isDigit || (c = '.' && (cs.head?.map Char.isDigit).getD false)) = true) :
    Scan.isIdentStart c = false ∧ Scan.isWs c = false ∧
      (c = '/' && cs.head? = some '/') = false := by
  have hcase : c.isDigit = true ∨ c = '.' := by
    rcases Bool.or_eq_true _ _ ▸ h with h1 | h1
    · exact .inl h1
    · exact .inr (by
        rcases Bool.and_eq_true _ _ ▸ h1 with ⟨h2, _⟩
        exact of_decide_eq_true h2)
  rcases hcase with hd | hdot
  · obtain ⟨h1, h2, _⟩ := digit_ne c hd
    refine ⟨?_, digit_not_ws c hd, ?_⟩
    · simp [Scan.isIdentStart, digit_not_alpha c hd, h2]
    · simp [h1]
  · subst hdot
    exact ⟨by decide, by decide, by simp⟩

/-- `skipWhitespace` does nothing on input that starts with a
non-whitespace character that does not open a comment. -/
theorem skipWs_cons_id (c : Char) (cs : List Char) (h1 : Scan.isWs c = false)
    (h2 : (c = '/' && cs.head? = some '/') = false) :
    Scan.skipWs (c :: cs) = (c :: cs, 0) := by
  show Scan.skipWsF (c :: cs).length (c :: cs) = _
  simp only [List.length_cons]
  rw [Scan.skipWsF]
  rw [if_neg (by simp [h1]), if_neg (by simp [h2])]

/-- On input whose first character is a digit, or a `.` followed by a
digit, `nextToken` runs its number branch: the token is `Number`,
its text and the remaining input are the two components of
`numLex`, and the line counter is unchanged. -/
theorem scanStep_number (c : Char) (cs : List Char) (line : Nat) (prev : String)
    (h : (c.isDigit || (c = '.' && (cs.head?.map Char.isDigit).getD false)) = true) :
    Scan.scanStep (c :: cs) line prev =
      (.Number, (Scan.numLex (c :: cs)).1, (Scan.numLex (c :: cs)).2, line) := by
  obtain ⟨hid, hws, hsl⟩ := number_start_facts c cs h
  show Scan.scanStepF ((c :: cs).length + 1) (c :: cs) line prev = _
  simp only [List.length_cons]
  rw [Scan.scanStepF]
  rw [skipWs_cons_id c cs hws hsl]
  simp only [hid, Bool.false_eq_true, if_false, h, if_true, Nat.add_zero]

/-- Every list of characters that all satisfy `p`, followed by a list
that does not start with one, is split by `span p` exactly at the
border. -/
theorem span_all_not (p : Char → Bool) (a b : List Char)
    (ha : ∀ x ∈ a, p x = true)
    (hb : ∀ d ds, b = d :: ds → p d = false) :
    (a ++ b).span p = (a, b) := by
  rw [List.span_eq_take_drop]
  induction a with
  | nil =>
    simp only [List.nil_append]
    cases b with
    | nil => simp
    | cons d ds =>
      have hd := hb d ds rfl
      simp [List.takeWhile_cons, List.dropWhile_cons, hd]
  | cons x xs ih =>
    have hx := ha x (by simp)
    have ih2 := ih (fun y hy => ha y (by simp [hy]))
    simp only [List.cons_append, List.takeWhile_cons, List.dropWhile_cons, hx, if_true]
    simp only [Prod.mk.injEq] at ih2 ⊢
    exact ⟨by rw [ih2.1], by rw [ih2.2]⟩

/-- A list of characters that all satisfy `p` is wholly consumed by
`span p`. -/
theorem span_all (p : Char → Bool) (a : List Char) (ha : ∀ x ∈ a, p x = true) :
    a.span p = (a, []) := by
  have := span_all_not p a [] ha (fun d ds h => by cases h)
  simpa using this

/-- The two components of a `span` concatenate back to its input. -/
theorem span_append (p : Char → Bool) (m : List Char) :
    (m.span p).1 ++ (m.span p).2 = m := by
  rw [List.span_eq_take_drop]
  exact List.takeWhile_append_dropWhile p m

/-- Every character of a `span`'s first component satisfies the
predicate. -/
theorem span_fst_all (p : Char → Bool) (m : List Char) :
    ∀ x ∈ (m.span p).1, p x = true := by
  rw [List.span_eq_take_drop]
  intro x hx
  exact List.mem_takeWhile_imp hx

/-- A `span`'s second component never starts with a character that
satisfies the predicate. -/
theorem span_snd_head (p : Char → Bool) (m : List Char) :
    ∀ d ds, (m.span p).2 = d :: ds → p d = false := by
  rw [List.span_eq_take_drop]
  intro d ds h
  have h2 : m.dropWhile p = d :: ds := h
  have hh := List.head?_dropWhile_not p m
  rw [h2] at hh
  simpa using hh

/-- The two components of `numFrac` concatenate back to its input. -/
theorem numFrac_append (m : List Char) :
    (Scan.numFrac m).1 ++ (Scan.numFrac m).2 = m := by
  unfold Scan.numFrac
  split
  · next t =>
    rcases hs : t.span (fun c => c.isDigit) with ⟨f, r⟩
    have ha := span_append (fun c => c.isDigit) t
    rw [hs] at ha
    simp only [hs, List.cons_append]
    rw [ha]
  · rfl

/-- The two components of `numExp` concatenate back to its input. -/
theorem numExp_append (m : List Char) :
    (Scan.numExp m).1 ++ (Scan.numExp m).2 = m := by
  unfold Scan.numExp
  split
  · next e t =>
    split
    · split
      · next s t2 =>
        split
        · rcases hd : t2.span (fun c => c.isDigit) with ⟨d, r⟩
          have ha := span_append (fun c => c.isDigit) t2
          rw [hd] at ha
          simp only [hd, List.cons_append]
          rw [ha]
        · rcases hd : (s :: t2).span (fun c => c.isDigit) with ⟨d, r⟩
          have ha := span_append (fun c => c.isDigit) (s :: t2)
          rw [hd] at ha
          simp only [hd, List.cons_append]
          rw [ha]
      · rfl
    · rfl
  · rfl

/-- The two components of `numLex` concatenate back to its input: the
number branch consumes a prefix and leaves exactly the rest. -/
theorem numLex_append (l : List Char) :
    (Scan.numLex l).1.data ++ (Scan.numLex l).2 = l := by
  unfold Scan.numLex
  rcases h1 : l.span (fun c => c.isDigit) with ⟨i, r1⟩
  rcases h2 : Scan.numFrac r1 with ⟨f, r2⟩
  rcases h3 : Scan.numExp r2 with ⟨x, r3⟩
  have a1 := span_append (fun c => c.isDigit) l
  rw [h1] at a1
  have a2 := numFrac_append r1
  rw [h2] at a2
  have a3 := numExp_append r2
  rw [h3] at a3
  simp only [h1, h2, h3]
  show (i ++ f ++ x) ++ r3 = l
  rw [List.append_assoc, List.append_assoc, a3, a2, a1]

/-- `amendedExpTail` accepts `e`/`E` followed by a digit run. -/
theorem amendedExpTail_digits (e : Char) (he : e = 'e' ∨ e = 'E') (ds : List Char)
    (hds : ∀ x ∈ ds, Char.isDigit x = true) : amendedExpTail (e :: ds) = true := by
  have he2 : (e = 'e' || e = 'E') = true := by rcases he with h | h <;> simp [h]
  match ds with
  | [] => simp [amendedExpTail, he2]
  | d0 :: ds0 =>
    have hd0 : d0.isDigit = true := hds d0 (by simp)
    have h1 : d0 ≠ '+' := by intro hh; rw [hh] at hd0; exact absurd hd0 (by decide)
    have h2 : d0 ≠ '-' := by intro hh; rw [hh] at hd0; exact absurd hd0 (by decide)
    simp [amendedExpTail, he2, h1, h2]
    exact ⟨hd0, fun x hx => hds x (by simp [hx])⟩

/-- `amendedExpTail` accepts `e`/`E`, a sign and a digit run. -/
theorem amendedExpTail_sign (e s : Char) (he : e = 'e' ∨ e = 'E')
    (hs : s = '+' ∨ s = '-') (ds : List Char)
    (hds : ∀ x ∈ ds, Char.isDigit x = true) :
    amendedExpTail (e :: s :: ds) = true := by
  have hall : ds.all Char.isDigit = true := List.all_eq_true.mpr (fun x hx => hds x hx)
  rcases he with h | h <;> rcases hs with h2 | h2 <;> subst h <;> subst h2 <;>
    simp [amendedExpTail, hall]

/-- What `numExp` produces: its components reassemble its input, the
consumed part is an exponent shape of the amended grammar, and it is
either empty (leaving the input untouched) or starts with `e`/`E`. -/
theorem numExp_props (m : List Char) :
    amendedExpTail (Scan.numExp m).1 = true ∧
    ((Scan.numExp m).1 = [] ∧ (Scan.numExp m).2 = m ∨
      ∃ e rest, (Scan.numExp m).1 = e :: rest ∧ (e = 'e' ∨ e = 'E')) := by
  unfold Scan.numExp
  split
  · next e t =>
    split
    · next he =>
      have he2 : e = 'e' ∨ e = 'E' := by
        rcases Bool.or_eq_true _ _ ▸ he with h | h
        · exact .inl (of_decide_eq_true h)
        · exact .inr (of_decide_eq_true h)
      split
      · next s t2 =>
        split
        · next hs =>
          have hs2 : s = '+' ∨ s = '-' := by
            rcases Bool.or_eq_true _ _ ▸ hs with h | h
            · exact .inl (of_decide_eq_true h)
            · exact .inr (of_decide_eq_true h)
          rcases hd : t2.span (fun c => c.isDigit) with ⟨d, r⟩
          have hdall : ∀ x ∈ d, Char.isDigit x = true := by
            intro x hx
            have := span_fst_all (fun c => c.isDigit) t2 x (by rw [hd]; exact hx)
            simpa using this
          simp only [hd]
          exact ⟨amendedExpTail_sign e s he2 hs2 d hdall, .inr ⟨e, s :: d, rfl, he2⟩⟩
        · rcases hd : (s :: t2).span (fun c => c.isDigit) with ⟨d, r⟩
          have hdall : ∀ x ∈ d, Char.isDigit x = true := by
            intro x hx
            have := span_fst_all (fun c => c.isDigit) (s :: t2) x (by rw [hd]; exact hx)
            simpa using this
          simp only [hd]
          exact ⟨amendedExpTail_digits e he2 d hdall, .inr ⟨e, d, rfl, he2⟩⟩
      · exact ⟨amendedExpTail_digits e he2 [] (by intro x hx; cases hx), .inr ⟨e, [], rfl, he2⟩⟩
    · exact ⟨rfl, .inl ⟨rfl, rfl⟩⟩
  · exact ⟨rfl, .inl ⟨rfl, rfl⟩⟩

/-- On an exponent of the amended grammar, `numExp` consumes the
whole input. -/
theorem numExp_full (m : List Char) (h : amendedExpTail m = true) :
    Scan.numExp m = (m, []) := by
  match m with
  | [] => rfl
  | e :: t =>
    unfold amendedExpTail at h
    rw [Bool.and_eq_true] at h
    obtain ⟨he, hrest⟩ := h
    match t with
    | [] => simp [Scan.numExp, he]
    | s :: t2 =>
      by_cases hplus : s = '+'
      · subst hplus
        have ht2 : t2.all Char.isDigit = true := hrest
        have hsp : t2.span (fun c => c.isDigit) = (t2, []) :=
          span_all _ t2 (fun x hx => List.all_eq_true.mp ht2 x hx)
        simp [Scan.numExp, he, hsp]
        exact fun x hx => List.all_eq_true.mp ht2 x hx
      · by_cases hminus : s = '-'
        · subst hminus
          have ht2 : t2.all Char.isDigit = true := hrest
          have hsp : t2.span (fun c => c.isDigit) = (t2, []) :=
            span_all _ t2 (fun x hx => List.all_eq_true.mp ht2 x hx)
          simp [Scan.numExp, he, hsp]
          exact fun x hx => List.all_eq_true.mp ht2 x hx
        · have hall : (s :: t2).all Char.isDigit = true := by
            split at hrest
            · next d heq =>
              exfalso
              rw [List.cons.injEq] at heq
              exact hplus heq.1
            · next d heq =>
              exfalso
              rw [List.cons.injEq] at heq
              exact hminus heq.1
            · exact hrest
          have hsp : (s :: t2).span (fun c => c.isDigit) = (s :: t2, []) :=
            span_all _ (s :: t2) (fun x hx => List.all_eq_true.mp hall x hx)
          simp [Scan.numExp, he, hplus, hminus, hsp]
          exact ⟨List.all_eq_true.mp hall s (by simp),
            fun a ha => List.all_eq_true.mp hall a (by simp [ha])⟩

/-- `takeWhile` of a run of satisfying characters followed by a list
that does not start with one stops exactly at the border. -/
theorem takeWhile_all_not (p : Char → Bool) (a b : List Char)
    (ha : ∀ x ∈ a, p x = true) (hb : ∀ d ds, b = d :: ds → p d = false) :
    (a ++ b).takeWhile p = a := by
  have hsp := span_all_not p a b ha hb
  rw [List.span_eq_take_drop, Prod.mk.injEq] at hsp
  exact hsp.1

/-- `dropWhile` of a run of satisfying characters followed by a list
that does not start with one drops exactly the run. -/
theorem dropWhile_all_not (p : Char → Bool) (a b : List Char)
    (ha : ∀ x ∈ a, p x = true) (hb : ∀ d ds, b = d :: ds → p d = false) :
    (a ++ b).dropWhile p = b := by
  have hsp := span_all_not p a b ha hb
  rw [List.span_eq_take_drop, Prod.mk.injEq] at hsp
  exact hsp.2

/-- `amendedNumber` on a token assembled from a digit run, a `.`, a
second digit run and an exponent part (empty or `e`/`E`-headed). -/
theorem amendedNumber_parts_dot (int fd x : List Char)
    (hint : ∀ c ∈ int, Char.isDigit c = true)
    (hfd : ∀ c ∈ fd, Char.isDigit c = true)
    (hx : x = [] ∨ ∃ e rest, x = e :: rest ∧ (e = 'e' ∨ e = 'E')) :
    amendedNumber (String.mk (int ++ '.' :: (fd ++ x))) =
      ((!int.isEmpty || !fd.isEmpty) && amendedExpTail x) := by
  have hxhead : ∀ d ds, x = d :: ds → Char.isDigit d = false := by
    intro d ds hh
    rcases hx with h0 | ⟨e, rest, he, hee⟩
    · rw [h0] at hh; cases hh
    · rw [he, List.cons.injEq] at hh
      rw [← hh.1]
      rcases hee with h2 | h2 <;> rw [h2] <;> decide
  have hdothead : ∀ d ds, ('.' :: (fd ++ x) : List Char) = d :: ds → Char.isDigit d = false := by
    intro d ds hh
    rw [List.cons.injEq] at hh
    rw [← hh.1]
    decide
  unfold amendedNumber
  rw [show (String.mk (int ++ '.' :: (fd ++ x))).data = int ++ '.' :: (fd ++ x) from rfl]
  rw [takeWhile_all_not Char.isDigit int _ hint hdothead,
      dropWhile_all_not Char.isDigit int _ hint hdothead]
  simp only [amendedAfterInt]
  rw [takeWhile_all_not Char.isDigit fd x hfd hxhead,
      dropWhile_all_not Char.isDigit fd x hfd hxhead]

/-- `amendedNumber` on a token with no decimal point: a digit run
followed by an exponent part (empty or `e`/`E`-headed). -/
theorem amendedNumber_parts_nodot (int x : List Char)
    (hint : ∀ c ∈ int, Char.isDigit c = true)
    (hx : x = [] ∨ ∃ e rest, x = e :: rest ∧ (e = 'e' ∨ e = 'E')) :
    amendedNumber (String.mk (int ++ x)) = (!int.isEmpty && amendedExpTail x) := by
  have hxhead : ∀ d ds, x = d :: ds → Char.isDigit d = false := by
    intro d ds hh
    rcases hx with h0 | ⟨e, rest, he, hee⟩
    · rw [h0] at hh; cases hh
    · rw [he, List.cons.injEq] at hh
      rw [← hh.1]
      rcases hee with h2 | h2 <;> rw [h2] <;> decide
  unfold amendedNumber
  rw [show (String.mk (int ++ x)).data = int ++ x from rfl]
  rw [takeWhile_all_not Char.isDigit int x hint hxhead,
      dropWhile_all_not Char.isDigit int x hint hxhead]
  rcases hx with h0 | ⟨e, rest, he, hee⟩
  · rw [h0]
    rfl
  · rw [he]
    rcases hee with h2 | h2 <;> rw [h2] <;> rfl

/-- Which shape the number branch's start condition puts the digit
span of the input into: either the first character is a digit and the
span's run is nonempty, or the input starts with `.` followed by a
digit and the span's run is empty. -/
theorem span_digits_start (c : Char) (cs : List Char)
    (h : (c.isDigit || (c = '.' && (cs.head?.map Char.isDigit).getD false)) = true) :
    (c.isDigit = true ∧ (c :: cs).takeWhile (fun x => x.isDigit) ≠ []) ∨
    (c = '.' ∧ (c :: cs).takeWhile (fun x => x.isDigit) = [] ∧
      (c :: cs).dropWhile (fun x => x.isDigit) = c :: cs ∧
      ∃ d ds, cs = d :: ds ∧ d.isDigit = true) := by
  rcases Bool.or_eq_true _ _ ▸ h with hd | hdot
  · left
    refine ⟨hd, ?_⟩
    rw [List.takeWhile_cons, if_pos hd]
    intro hnil
    cases hnil
  · right
    rcases Bool.and_eq_true _ _ ▸ hdot with ⟨hc, hcsd⟩
    have hc2 : c = '.' := of_decide_eq_true hc
    subst hc2
    refine ⟨rfl, ?_, ?_, ?_⟩
    · rw [List.takeWhile_cons, if_neg (by decide)]
    · rw [List.dropWhile_cons, if_neg (by decide)]
    · match cs with
      | [] => simp at hcsd
      | d :: ds =>
        refine ⟨d, ds, rfl, ?_⟩
        simpa using hcsd

/-- The text scanned by the number branch is a number of the amended
grammar: `numLex` on input starting with a digit, or with `.`
followed by a digit, yields a token text accepted by
`amendedNumber`. -/
theorem amendedNumber_numLex (c : Char) (cs : List Char)
    (h : (c.isDigit || (c = '.' && (cs.head?.map Char.isDigit).getD false)) = true) :
    amendedNumber (Scan.numLex (c :: cs)).1 = true := by
  rcases hsp : (c :: cs).span (fun x => x.isDigit) with ⟨int, r1⟩
  have hint : ∀ x ∈ int, Char.isDigit x = true := by
    intro x hx
    exact span_fst_all (fun x => x.isDigit) (c :: cs) x (by rw [hsp]; exact hx)
  have hsp2 : (c :: cs).takeWhile (fun x => x.isDigit) = int ∧
      (c :: cs).dropWhile (fun x => x.isDigit) = r1 := by
    have hp : ((c :: cs).takeWhile (fun x => x.isDigit),
        (c :: cs).dropWhile (fun x => x.isDigit)) = (int, r1) := by
      rw [← List.span_eq_take_drop]
      exact hsp
    rw [Prod.mk.injEq] at hp
    exact hp
  simp only [Scan.numLex, hsp]
  rcases hnf : Scan.numFrac r1 with ⟨f, r2⟩
  rcases hne : Scan.numExp r2 with ⟨x, r3⟩
  obtain ⟨hxtail, hxshape⟩ := numExp_props r2
  rw [hne] at hxtail hxshape
  have hxs : x = [] ∨ ∃ e rest, x = e :: rest ∧ (e = 'e' ∨ e = 'E') := by
    rcases hxshape with ⟨h0, _⟩ | ⟨e, rest, hxe, hee⟩
    · exact .inl h0
    · exact .inr ⟨e, rest, hxe, hee⟩
  simp only [hnf, hne]
  unfold Scan.numFrac at hnf
  split at hnf
  · -- r1 = '.' :: t
    next t =>
    rcases hspt : t.span (fun x => x.isDigit) with ⟨fd, rest2⟩
    rw [hspt] at hnf
    simp only [Prod.mk.injEq] at hnf
    have hfd : ∀ y ∈ fd, Char.isDigit y = true := by
      intro y hy
      exact span_fst_all (fun x => x.isDigit) t y (by rw [hspt]; exact hy)
    rw [← hnf.1]
    have hassoc : int ++ '.' :: fd ++ x = int ++ '.' :: (fd ++ x) := by
      simp
    rw [hassoc]
    rw [amendedNumber_parts_dot int fd x hint hfd hxs]
    rw [Bool.and_eq_true]
    refine ⟨?_, hxtail⟩
    rcases span_digits_start c cs h with ⟨hd, hne2⟩ | ⟨hdotc, hemp, hdrop, d, ds, hcs, hdd⟩
    · rw [hsp2.1] at hne2
      rcases int with _ | ⟨i0, int2⟩
      · exact absurd rfl hne2
      · simp
    · subst hdotc
      have hr1cs : ('.' : Char) :: t = '.' :: cs := by
        rw [← hsp2.2]
        exact hdrop
      have ht : t = cs := (List.cons.injEq '.' t '.' cs ▸ hr1cs).2
      have hfdne : fd ≠ [] := by
        rw [ht, hcs] at hspt
        have hp : ((d :: ds).takeWhile (fun x => x.isDigit),
            (d :: ds).dropWhile (fun x => x.isDigit)) = (fd, rest2) := by
          rw [← List.span_eq_take_drop]
          exact hspt
        rw [Prod.mk.injEq] at hp
        have htw : (d :: ds).takeWhile (fun x => x.isDigit) =
            d :: ds.takeWhile (fun x => x.isDigit) := by
          rw [List.takeWhile_cons, if_pos hdd]
        rw [htw] at hp
        rw [← hp.1]
        intro hx2
        cases hx2
      rcases fd with _ | ⟨f0, fd2⟩
      · exact absurd rfl hfdne
      · simp
  · -- r1 does not start with '.'
    simp only [Prod.mk.injEq] at hnf
    rw [← hnf.1]
    have hplain : int ++ [] ++ x = int ++ x := by simp
    rw [hplain]
    rw [amendedNumber_parts_nodot int x hint hxs]
    rw [Bool.and_eq_true]
    refine ⟨?_, hxtail⟩
    rcases span_digits_start c cs h with ⟨hd, hne2⟩ | ⟨hdotc, hemp, hdrop, d, ds, hcs, hdd⟩
    · rw [hsp2.1] at hne2
      rcases int with _ | ⟨i0, int2⟩
      · exact absurd rfl hne2
      · simp
    · exfalso
      have hr1cs : r1 = c :: cs := by
        rw [← hsp2.2]
        exact hdrop
      subst hdotc
      next hmiss =>
      exact hmiss cs hr1cs

/-- On a complete number of the amended grammar, the number branch
consumes the entire input, and such an input satisfies the number
branch's start condition. -/
theorem numLex_full (s : String) (h : amendedNumber s = true) :
    Scan.numLex s.data = (s, []) ∧
    ∃ c cs, s.data = c :: cs ∧
      (c.isDigit || (c = '.' && (cs.head?.map Char.isDigit).getD false)) = true := by
  unfold amendedNumber at h
  have hback : s.data.takeWhile Char.isDigit ++ s.data.dropWhile Char.isDigit = s.data :=
    List.takeWhile_append_dropWhile _ _
  have hintall : ∀ x ∈ s.data.takeWhile Char.isDigit, Char.isDigit x = true := by
    intro x hx
    exact List.mem_takeWhile_imp hx
  simp only [Scan.numLex]
  rw [List.span_eq_take_drop]
  rcases hdw : s.data.dropWhile Char.isDigit with _ | ⟨d, t⟩
  · -- no rest at all: the whole input is the digit run
    rw [hdw] at h hback
    have h2 : amendedAfterInt (s.data.takeWhile Char.isDigit) [] =
        ((!(s.data.takeWhile Char.isDigit).isEmpty) && amendedExpTail []) := rfl
    rw [h2, Bool.and_eq_true] at h
    have hone := h.1
    rw [List.append_nil] at hback
    constructor
    · simp only [hdw]
      show (String.mk (s.data.takeWhile Char.isDigit ++ [] ++ []), ([] : List Char)) = (s, [])
      rw [List.append_nil, List.append_nil, hback]
    · rcases hint : s.data.takeWhile Char.isDigit with _ | ⟨i0, int2⟩
      · rw [hint] at hone; cases hone
      · refine ⟨i0, int2, ?_, ?_⟩
        · rw [← hback, hint]
        · have hi0 : i0.isDigit = true := by
            refine hintall i0 ?_
            rw [hint]
            simp
          simp [hi0]
  · rw [hdw] at h hback
    by_cases hd : d = '.'
    · subst hd
      have h2 : amendedAfterInt (s.data.takeWhile Char.isDigit) ('.' :: t) =
          ((!(s.data.takeWhile Char.isDigit).isEmpty ||
              !(t.takeWhile Char.isDigit).isEmpty) &&
            amendedExpTail (t.dropWhile Char.isDigit)) := rfl
      rw [h2, Bool.and_eq_true] at h
      obtain ⟨hne, hxt⟩ := h
      have htback : t.takeWhile Char.isDigit ++ t.dropWhile Char.isDigit = t :=
        List.takeWhile_append_dropWhile _ _
      constructor
      · have hnf : Scan.numFrac ('.' :: t) =
            ('.' :: t.takeWhile Char.isDigit, t.dropWhile Char.isDigit) := by
          simp only [Scan.numFrac]
          rw [List.span_eq_take_drop]
        simp only [hdw, hnf, numExp_full (t.dropWhile Char.isDigit) hxt]
        have hflat : s.data.takeWhile Char.isDigit ++ '.' :: t.takeWhile Char.isDigit ++
            t.dropWhile Char.isDigit = s.data := by
          rw [List.append_assoc, List.cons_append, htback, hback]
        rw [hflat]
      · rcases Bool.or_eq_true _ _ ▸ hne with hi | hf
        · rcases hint : s.data.takeWhile Char.isDigit with _ | ⟨i0, int2⟩
          · rw [hint] at hi; cases hi
          · refine ⟨i0, int2 ++ '.' :: t, ?_, ?_⟩
            · rw [← hback, hint]
              simp
            · have hi0 : i0.isDigit = true := by
                refine hintall i0 ?_
                rw [hint]
                simp
              simp [hi0]
        · rcases hint : s.data.takeWhile Char.isDigit with _ | ⟨i0, int2⟩
          · refine ⟨'.', t, ?_, ?_⟩
            · rw [← hback, hint]
              rfl
            · rcases hft : t.takeWhile Char.isDigit with _ | ⟨f0, ft2⟩
              · rw [hft] at hf; cases hf
              · have hf0 : f0.isDigit = true := by
                  refine List.mem_takeWhile_imp (p := Char.isDigit) (l := t) ?_
                  rw [hft]
                  simp
                have hth : t.head? = some f0 := by
                  conv_lhs => rw [← htback]
                  rw [hft]
                  rfl
                simp [hth, hf0]
          · refine ⟨i0, int2 ++ '.' :: t, ?_, ?_⟩
            · rw [← hback, hint]
              simp
            · have hi0 : i0.isDigit = true := by
                refine hintall i0 ?_
                rw [hint]
                simp
              simp [hi0]
    · -- rest starts with a character other than '.'
      have h2 : amendedAfterInt (s.data.takeWhile Char.isDigit) (d :: t) =
          ((!(s.data.takeWhile Char.isDigit).isEmpty) && amendedExpTail (d :: t)) := by
        unfold amendedAfterInt
        split
        · next heq =>
          exfalso
          rw [List.cons.injEq] at heq
          exact hd heq.1
        · rfl
      rw [h2, Bool.and_eq_true] at h
      obtain ⟨hne, hxt⟩ := h
      constructor
      · have hnf : Scan.numFrac (d :: t) = ([], d :: t) := by
          unfold Scan.numFrac
          split
          · next heq =>
            exfalso
            rw [List.cons.injEq] at heq
            exact hd heq.1
          · rfl
        simp only [hdw, hnf, numExp_full (d :: t) hxt]
        have hflat : s.data.takeWhile Char.isDigit ++ [] ++ d :: t = s.data := by
          rw [List.append_nil, hback]
        rw [hflat]
      · rcases hint : s.data.takeWhile Char.isDigit with _ | ⟨i0, int2⟩
        · rw [hint] at hne; cases hne
        · refine ⟨i0, int2 ++ d :: t, ?_, ?_⟩
          · rw [← hback, hint]
            simp
          · have hi0 : i0.isDigit = true := by
              refine hintall i0 ?_
              rw [hint]
              simp
            simp [hi0]

set_option maxRecDepth 2000000

set_option maxHeartbeats 40000000

/-- C1 (counterexample): the round trip `generate(parse(t).xml)` is
not text-equivalent to `t` up to whitespace/formatting.  Three
violations, on programs that parse without error (i.e. lie in the
supported grammar subset): (1) the generator parenthesises
arithmetic, so the regenerated text of `x = a + b;` has a different
token stream; (2) a `def unit` block is consumed by the parser
without building anything, so its tokens — the keyword `unit`
included — are absent from the regenerated text; (3) the round trip
fails even at tree level: `x = root(a);` parses to a generic
`apply(root, a)`, but the generator renders a `root` apply as
`sqrt(a)`, so the reparsed tree differs from the original even
after stripping the in-memory source-line attribute. -/
theorem c1_roundtrip_counterexample :
    ((Parser.parse Parser.defaultOpts 300 tParen).map (fun r => r.errors) = some [] ∧
      (genTextOf 300 tParen).map (tokensOf 300) ≠ some (tokensOf 300 tParen)) ∧
    ((Parser.parse Parser.defaultOpts 300 tUnitProg).map (fun r => r.errors) = some [] ∧
      (genTextOf 300 tUnitProg).map
          (fun txt => (tokensOf 300 txt).any (fun p => p.1 = Tok.KwUnit)) = some false ∧
      (tokensOf 300 tUnitProg).any (fun p => p.1 = Tok.KwUnit) = true) ∧
    ((Parser.parse Parser.defaultOpts 300 tRoot).map (fun r => r.errors) = some [] ∧
      genTextOf 300 tRoot =
        some "def model m as\n  def comp c as\n    x = sqrt(a);\n  enddef;\nenddef;\n" ∧
      (reparseOf 300 tRoot).map (stripE "data-source-location") ≠
        (parseTreeOf Parser.defaultOpts 300 tRoot).map (stripE "data-source-location")) := by
  decide

/-- C1 (amended): the round trip is not an equivalence on the
supported grammar subset — not even at tree level, see the
counterexample — but on concrete representative programs whose
equations stay within the generator's faithfully rendered
constructs, reparsing the generated text reproduces the element
tree exactly, up to the in-memory source-line attribute.  Shown on
six programs covering variable declarations with units and initial
values, `+`/`*` precedence, a plain parenthesised sum, one-line and
two-line equations, and piecewise blocks with and without
`otherwise` (one with a units-annotated value and an `and`
condition). -/
theorem c1_roundtrip_amended :
    ((parseTreeOf Parser.defaultOpts 300 tProg).isSome ∧
      (reparseOf 300 tProg).map (stripE "data-source-location") =
        (parseTreeOf Parser.defaultOpts 300 tProg).map (stripE "data-source-location")) ∧
    ((parseTreeOf Parser.defaultOpts 300 tParen).isSome ∧
      (reparseOf 300 tParen).map (stripE "data-source-location") =
        (parseTreeOf Parser.defaultOpts 300 tParen).map (stripE "data-source-location")) ∧
    ((parseTreeOf Parser.defaultOpts 300 tOneLine).isSome ∧
      (reparseOf 300 tOneLine).map (stripE "data-source-location") =
        (parseTreeOf Parser.defaultOpts 300 tOneLine).map (stripE "data-source-location")) ∧
    ((parseTreeOf Parser.defaultOpts 300 tTwoLine).isSome ∧
      (reparseOf 300 tTwoLine).map (stripE "data-source-location") =
        (parseTreeOf Parser.defaultOpts 300 tTwoLine).map (stripE "data-source-location")) ∧
    ((parseTreeOf Parser.defaultOpts 300 tPw1).isSome ∧
      (reparseOf 300 tPw1).map (stripE "data-source-location") =
        (parseTreeOf Parser.defaultOpts 300 tPw1).map (stripE "data-source-location")) ∧
    ((parseTreeOf Parser.defaultOpts 300 tPw2).isSome ∧
      (reparseOf 300 tPw2).map (stripE "data-source-location") =
        (parseTreeOf Parser.defaultOpts 300 tPw2).map (stripE "data-source-location")) := by
  decide

/-- C2: whenever `parse` returns (`some r`; `none` is a run that
exhausted its fuel, see C10), the result has exactly one of the two
shapes — a non-null XML string with an empty error list, or a null
XML with exactly one `\x7bline, message\x7d` entry; and on a program
whose first violation (a `:` where an identifier is required) sits
on line 3, the single error carries line 3. -/
theorem c2_parse_result_shape :
    (∀ (opts : Parser.POpts) (fuel : Nat) (input : String) (r : Parser.ParserResult),
        Parser.parse opts fuel input = some r →
          (∃ x, r.xml = some x ∧ r.errors = []) ∨
            (r.xml = none ∧ ∃ e, r.errors = [e])) ∧
    Parser.parse Parser.defaultOpts 100 tBadVar =
      some ⟨none, [⟨3, "Expected value of type Identifier, got 21"⟩]⟩ := by
  constructor
  · intro opts fuel input r h
    unfold Parser.parse at h
    split at h
    · cases h
    · cases h
      right
      exact ⟨rfl, _, rfl⟩
    · cases h
      left
      exact ⟨_, rfl, rfl⟩
  · decide

/-- Witness for C2 at a concrete input. -/
theorem c2_parse_result_shape_witness :
    ∃ r, Parser.parse Parser.defaultOpts 300 tProg = some r ∧
      ((∃ x, r.xml = some x ∧ r.errors = []) ∨ (r.xml = none ∧ ∃ e, r.errors = [e])) :=
  ⟨_, rfl, c2_parse_result_shape.1 Parser.defaultOpts 300 tProg _ rfl⟩

/-- C3: `"a + b * c"` parses to `plus(a, times(b, c))` and not to
`times(plus(a, b), c)`; `*`/`/` bind tighter than `+`/`-`, and each
binary level folds left-associatively (shown on mixed chains at both
levels). -/
theorem c3_precedence :
    exprTreeOf 50 "a + b * c" = some (apM "plus" (ciM "a") (apM "times" (ciM "b") (ciM "c"))) ∧
    exprTreeOf 50 "a + b * c" ≠ some (apM "times" (apM "plus" (ciM "a") (ciM "b")) (ciM "c")) ∧
    exprTreeOf 50 "a * b + c" = some (apM "plus" (apM "times" (ciM "a") (ciM "b")) (ciM "c")) ∧
    exprTreeOf 50 "a - b + c" = some (apM "plus" (apM "minus" (ciM "a") (ciM "b")) (ciM "c")) ∧
    exprTreeOf 50 "a + b - c" = some (apM "minus" (apM "plus" (ciM "a") (ciM "b")) (ciM "c")) ∧
    exprTreeOf 50 "a / b * c" = some (apM "times" (apM "divide" (ciM "a") (ciM "b")) (ciM "c")) ∧
    exprTreeOf 50 "a * b / c" = some (apM "divide" (apM "times" (ciM "a") (ciM "b")) (ciM "c")) ∧
    exprTreeOf 50 "a + b * c + d" =
      some (apM "plus" (apM "plus" (ciM "a") (apM "times" (ciM "b") (ciM "c"))) (ciM "d")) := by
  decide

/-- C4: whenever `parseFunctionCall` succeeds (which needs positive
fuel), a callee named `ode` consumed `(`, a first expression (the
dependent variable), a comma, a second expression (the independent
variable) and `)`, and built exactly
`apply(diff, bvar(<second argument>), <first argument>)` — the
dependent variable being the final child and the independent
variable the one inside `bvar`; any other callee consumed `(`, the
comma-separated argument list (empty when `)` follows at once) and
`)`, and built the generic n-ary apply whose children are the
operator named after the callee followed by the parsed arguments in
their parse order. -/
theorem c4_function_call_desugaring :
    ∀ (fuel : Nat) (funcName : String) (s s2 : Scan.ScanState) (e : Elem),
      Parser.parseFunctionCall (fuel + 1) funcName s = .ok e s2 →
        (funcName = "ode" →
          ∃ u1 s1 dep sa u2 sb indep sc u3 sd,
            Parser.expectT Tok.LParam s = .ok u1 s1 ∧
            Parser.parseExpression fuel s1 = .ok dep sa ∧
            Parser.expectT Tok.OpComma sa = .ok u2 sb ∧
            Parser.parseExpression fuel sb = .ok indep sc ∧
            Parser.expectT Tok.RParam sc = .ok u3 sd ∧
            e = Elem.mk Parser.MATHML_NS "apply" []
              [Parser.mkOp "diff", Elem.mk Parser.MATHML_NS "bvar" [] [indep] "", dep] "" ∧
            s2 = sd) ∧
        (funcName ≠ "ode" →
          ∃ u1 s1 sp sa args sb u2 sc,
            Parser.expectT Tok.LParam s = .ok u1 s1 ∧
            Parser.peek s1 = .ok sp sa ∧
            ((sp.tok ≠ Tok.RParam ∧ Parser.argLoop fuel sa = .ok args sb) ∨
              (sp.tok = Tok.RParam ∧ args = [] ∧ sb = sa)) ∧
            Parser.expectT Tok.RParam sb = .ok u2 sc ∧
            e = Elem.mk Parser.MATHML_NS "apply" [] (Parser.mkOp funcName :: args) "" ∧
            s2 = sc) := by
  intro fuel funcName s s2 e h
  unfold Parser.parseFunctionCall at h
  simp only [bind_def, pmBind_ok_iff] at h
  obtain ⟨u1, s1, hexp, h⟩ := h
  split at h
  · next hode =>
    simp only [bind_def, pmBind_ok_iff, pure_def, pmPure_ok_iff] at h
    obtain ⟨dep, sa, hdep, u2, sb, hc, indep, sc, hind, u3, sd, hrp, he, hs⟩ := h
    constructor
    · intro _
      exact ⟨u1, s1, dep, sa, u2, sb, indep, sc, u3, sd,
        hexp, hdep, hc, hind, hrp, he, hs⟩
    · intro hne
      exact absurd hode hne
  · next hode =>
    simp only [bind_def, pmBind_ok_iff] at h
    obtain ⟨sp, sa, hpk, h⟩ := h
    by_cases hr : sp.tok ≠ Tok.RParam
    · rw [if_pos hr] at h
      simp only [bind_def, pmBind_ok_iff, pure_def, pmPure_ok_iff] at h
      obtain ⟨args, sb, hargs, u2, sc, hrp, he, hs⟩ := h
      exact ⟨fun heq => absurd heq hode,
        fun _ => ⟨u1, s1, sp, sa, args, sb, u2, sc, hexp, hpk,
          .inl ⟨hr, hargs⟩, hrp, he, hs⟩⟩
    · rw [if_neg hr] at h
      simp only [bind_def, pmBind_ok_iff, pure_def, pmPure_ok_iff] at h
      obtain ⟨args, sb, ⟨hargs, hsb⟩, u2, sc, hrp, he, hs⟩ := h
      exact ⟨fun heq => absurd heq hode,
        fun _ => ⟨u1, s1, sp, sa, args, sb, u2, sc, hexp, hpk,
          .inr ⟨not_not.mp hr, hargs, hsb⟩, hrp, he, hs⟩⟩

/-- Witness for C4 at concrete inputs: `ode(V, t)` builds exactly
`apply(diff, bvar(t), V)` — the first argument `V` as the final
child and the second argument `t` inside `bvar` — and `f(a, b, c)`
builds exactly `apply(f, a, b, c)` with the three arguments in their
written order; the two conclusions of the theorem are additionally
instantiated at the same inputs. -/
theorem c4_function_call_desugaring_witness :
    Parser.parseFunctionCall 50 "ode" (Scan.initScan "(V, t)") =
      .ok (Elem.mk Parser.MATHML_NS "apply" []
        [Parser.mkOp "diff",
         Elem.mk Parser.MATHML_NS "bvar" [] [Elem.mk Parser.MATHML_NS "ci" [] [] "t"] "",
         Elem.mk Parser.MATHML_NS "ci" [] [] "V"] "")
        ⟨[], 1, .EOF, ")"⟩ ∧
    Parser.parseFunctionCall 50 "f" (Scan.initScan "(a, b, c)") =
      .ok (Elem.mk Parser.MATHML_NS "apply" []
        [Parser.mkOp "f", Elem.mk Parser.MATHML_NS "ci" [] [] "a",
         Elem.mk Parser.MATHML_NS "ci" [] [] "b",
         Elem.mk Parser.MATHML_NS "ci" [] [] "c"] "")
        ⟨[], 1, .EOF, ")"⟩ ∧
    (∃ e s2, Parser.parseFunctionCall 50 "ode" (Scan.initScan "(V, t)") = .ok e s2 ∧
      ∃ u1 s1 dep sa u2 sb indep sc u3 sd,
        Parser.expectT Tok.LParam (Scan.initScan "(V, t)") = .ok u1 s1 ∧
        Parser.parseExpression 49 s1 = .ok dep sa ∧
        Parser.expectT Tok.OpComma sa = .ok u2 sb ∧
        Parser.parseExpression 49 sb = .ok indep sc ∧
        Parser.expectT Tok.RParam sc = .ok u3 sd ∧
        e = Elem.mk Parser.MATHML_NS "apply" []
          [Parser.mkOp "diff", Elem.mk Parser.MATHML_NS "bvar" [] [indep] "", dep] "" ∧
        s2 = sd) ∧
    (∃ e s2, Parser.parseFunctionCall 50 "f" (Scan.initScan "(a, b, c)") = .ok e s2 ∧
      ∃ u1 s1 sp sa args sb u2 sc,
        Parser.expectT Tok.LParam (Scan.initScan "(a, b, c)") = .ok u1 s1 ∧
        Parser.peek s1 = .ok sp sa ∧
        ((sp.tok ≠ Tok.RParam ∧ Parser.argLoop 49 sa = .ok args sb) ∨
          (sp.tok = Tok.RParam ∧ args = [] ∧ sb = sa)) ∧
        Parser.expectT Tok.RParam sb = .ok u2 sc ∧
        e = Elem.mk Parser.MATHML_NS "apply" [] (Parser.mkOp "f" :: args) "" ∧
        s2 = sc) :=
  ⟨by decide, by decide,
   ⟨_, _, rfl,
    (c4_function_call_desugaring 49 "ode" (Scan.initScan "(V, t)") _ _ rfl).1 rfl⟩,
   ⟨_, _, rfl,
    (c4_function_call_desugaring 49 "f" (Scan.initScan "(a, b, c)") _ _ rfl).2 (by decide)⟩⟩

/-- C5: with the source-line attribute enabled (the default), the
two-line equation of `tTwoLine` gets `"3-4"` on its top-level
`apply` and the one-line equation of `tOneLine` gets `"3"`; and
serialization is insensitive to the attribute everywhere in any
tree — serializing a tree equals serializing the same tree with
every source-line attribute removed (for any enabled attribute name
other than the `xmlns` the serializer itself injects), so the
attribute never reaches the XML string `parse` returns. -/
theorem c5_source_location :
    ((((parseTreeOf Parser.defaultOpts 100 tTwoLine).bind (childAt 0)).bind
          (childAt 0)).bind (childAt 0)).bind
        (fun ap => ap.getAttr "data-source-location") = some "3-4" ∧
    ((((parseTreeOf Parser.defaultOpts 100 tOneLine).bind (childAt 0)).bind
          (childAt 0)).bind (childAt 0)).bind
        (fun ap => ap.getAttr "data-source-location") = some "3" ∧
    (∀ (opts : Parser.POpts), Parser.srcEnabled opts = true → Parser.srcName opts ≠ "xmlns" →
      ∀ (e : Elem) (lvl : Nat),
        Parser.serialize opts e lvl =
          Parser.serialize opts (stripE (Parser.srcName opts) e) lvl) := by
  refine ⟨by decide, by decide, ?_⟩
  intro opts h1 h2 e lvl
  exact (serialize_stripE opts h1 h2 e lvl).symm

/-- Witness for C5's general conjunct at a concrete tree carrying
the attribute. -/
theorem c5_source_location_witness :
    Parser.serialize Parser.defaultOpts
        (Elem.mk Parser.MATHML_NS "apply" [⟨"", "data-source-location", "3-4"⟩]
          [opM "eq", ciM "x", ciM "y"] "") 0 =
      Parser.serialize Parser.defaultOpts
        (stripE (Parser.srcName Parser.defaultOpts)
          (Elem.mk Parser.MATHML_NS "apply" [⟨"", "data-source-location", "3-4"⟩]
            [opM "eq", ciM "x", ciM "y"] "")) 0 :=
  c5_source_location.2.2 Parser.defaultOpts (by decide) (by decide) _ 0

/-- Every element of the list built by `parsePiecewise`'s case loop
is a `piece` with exactly two children, the case value first and the
case condition second. -/
theorem caseLoop_pieces : ∀ (fuel : Nat) (s s2 : Scan.ScanState) (ps : List Elem),
    Parser.caseLoop fuel s = .ok ps s2 →
    ∀ p ∈ ps, ∃ v c, p = Elem.mk Parser.MATHML_NS "piece" [] [v, c] "" := by
  intro fuel
  induction fuel with
  | zero =>
    intro s s2 ps h
    have h0 : Parser.noFuel s = Parser.PRes.ok ps s2 := h
    exact absurd h0 noFuel_ne_ok
  | succ fuel ih =>
    intro s s2 ps h
    unfold Parser.caseLoop at h
    simp only [bind_def, pmBind_ok_iff] at h
    obtain ⟨sp, sa, _hpk, h⟩ := h
    split at h
    · simp only [bind_def, pmBind_ok_iff, pure_def, pmPure_ok_iff] at h
      obtain ⟨u1, s1, _h1, cond, sb, _h2, u2, sc, _h3, val, sd, _h4, u3, se, _h5,
        rest, sf, hrest, hps, _hs⟩ := h
      intro p hp
      rw [hps] at hp
      rcases List.mem_cons.mp hp with hp1 | hp2
      · exact ⟨val, cond, hp1⟩
      · exact ih se sf rest hrest p hp2
    · simp only [pure_def, pmPure_ok_iff] at h
      intro p hp
      rw [h.1] at hp
      cases hp

/-- C6 (counterexample): the piecewise round trip fails on a
parser-built `sel` block whose case value is a call to a function
named `eq`: `tPwEq` parses without error into a one-piece
`piecewise` whose value is the generic `apply(eq, a, b)`, but the
generator renders an `eq` apply as `a == b`, which is not a valid
case-value expression, so the regenerated text does not reparse at
all (the reparse fails on line 4 expecting the `;` after the
value). -/
theorem c6_piecewise_counterexample :
    (Parser.parse Parser.defaultOpts 300 tPwEq).map (fun r => r.errors) = some [] ∧
    pwOf (parseTreeOf Parser.defaultOpts 300 tPwEq) =
      some (Elem.mk Parser.MATHML_NS "piecewise" []
        [Elem.mk Parser.MATHML_NS "piece" []
          [apM "eq" (ciM "a") (ciM "b"), apM "gt" (ciM "y") (cnM "1")] ""] "") ∧
    reparseOf 300 tPwEq = none ∧
    (genTextOf 300 tPwEq).map
        (fun txt => (Parser.parse Parser.defaultOpts 300 txt).map (fun r => r.errors)) =
      some (some [⟨4, "Syntax Error: Expected SemiColon but found '=='"⟩]) := by
  decide

/-- C6 (amended): every piecewise tree built by the parser has the
claimed structure — universally, whenever `parsePiecewise` succeeds
it returns a `piecewise` whose children are the `piece` elements of
the case loop (each holding its value as first child and its
condition as second child) followed by an optional trailing
`otherwise` with a single value child; and the round trip — which
fails in general, see the counterexample — holds in full (identical
trees after reparsing the generated text) on the representative
programs `tPw1` (two cases and a trailing `otherwise`) and `tPw2`
(one case with an `and` condition and a units-annotated value, no
`otherwise`). -/
theorem c6_piecewise_roundtrip :
    (∀ (fuel : Nat) (s s2 : Scan.ScanState) (P : Elem),
      Parser.parsePiecewise (fuel + 1) s = .ok P s2 →
        ∃ pieces oth,
          P = Elem.mk Parser.MATHML_NS "piecewise" [] (pieces ++ oth) "" ∧
          (∀ p ∈ pieces, ∃ v c, p = Elem.mk Parser.MATHML_NS "piece" [] [v, c] "") ∧
          (oth = [] ∨ ∃ v, oth = [Elem.mk Parser.MATHML_NS "otherwise" [] [v] ""])) ∧
    pwOf (parseTreeOf Parser.defaultOpts 300 tPw1) = some pw1Tree ∧
    pwOf (reparseOf 300 tPw1) = some pw1Tree ∧
    pwOf (parseTreeOf Parser.defaultOpts 300 tPw2) = some pw2Tree ∧
    pwOf (reparseOf 300 tPw2) = some pw2Tree := by
  refine ⟨?_, by decide, by decide, by decide, by decide⟩
  intro fuel s s2 P h
  unfold Parser.parsePiecewise at h
  simp only [bind_def, pmBind_ok_iff] at h
  obtain ⟨u1, s1, _hsel, pieces, sa, hcl, sp, sb, _hpk, h⟩ := h
  split at h
  · simp only [bind_def, pure_def, pmBind_ok_iff, pmPure_ok_iff] at h
    obtain ⟨u3, se, _h1, u4, sf, _h2, v, sg, _h3, u5, sh, _h4, y, si, ⟨hy, _hsi⟩,
      u6, sj, _h6, hP, _hs2⟩ := h
    subst hy
    exact ⟨pieces, _, hP, caseLoop_pieces fuel s1 sa pieces hcl, .inr ⟨v, rfl⟩⟩
  · simp only [bind_def, pure_def, pmBind_ok_iff, pmPure_ok_iff] at h
    obtain ⟨y, si, ⟨hy, _hsi⟩, u6, sj, _h6, hP, _hs2⟩ := h
    subst hy
    exact ⟨pieces, [], hP, caseLoop_pieces fuel s1 sa pieces hcl, .inl rfl⟩

/-- Witness for C6's universal conjunct at a concrete `sel` block
with one case and an `otherwise`. -/
theorem c6_piecewise_roundtrip_witness :
    ∃ P s2, Parser.parsePiecewise 50
        (Scan.initScan "sel case y > 1: 1; otherwise: 2; endsel") = .ok P s2 ∧
      ∃ pieces oth,
        P = Elem.mk Parser.MATHML_NS "piecewise" [] (pieces ++ oth) "" ∧
        (∀ p ∈ pieces, ∃ v c, p = Elem.mk Parser.MATHML_NS "piece" [] [v, c] "") ∧
        (oth = [] ∨ ∃ v, oth = [Elem.mk Parser.MATHML_NS "otherwise" [] [v] ""]) :=
  ⟨_, _, rfl, c6_piecewise_roundtrip.1 49
    (Scan.initScan "sel case y > 1: 1; otherwise: 2; endsel") _ _ rfl⟩

/-- C7: in the LaTeX generator, the right operand of a binary minus
is rendered with required context precedence one above minus's own
precedence (the left operand with minus's own precedence), so
`minus(a, minus(b, c))` renders as `a - \left(b - c\right)` and not
as `a - b - c`. -/
theorem c7_latex_minus_parenthesization :
    (∀ (fuel ctx : Nat) (x y : Elem),
      LatexGen.parseNodeL (fuel + 2)
          (some (Elem.mk Parser.MATHML_NS "apply" []
            [Elem.mk Parser.MATHML_NS "minus" [] [] "", x, y] "")) ctx =
        if LatexGen.precOf "minus" < ctx then
          "\\left(" ++
            (LatexGen.parseNodeL fuel (some x) (LatexGen.precOf "minus") ++ " - " ++
              LatexGen.parseNodeL fuel (some y) (LatexGen.precOf "minus" + 1)) ++
            "\\right)"
        else
          LatexGen.parseNodeL fuel (some x) (LatexGen.precOf "minus") ++ " - " ++
            LatexGen.parseNodeL fuel (some y) (LatexGen.precOf "minus" + 1)) ∧
    LatexGen.convert minusNest = "a - \\left(b - c\\right)" ∧
    LatexGen.convert minusNest ≠ "a - b - c" := by
  refine ⟨?_, by decide, by decide⟩
  intro fuel ctx x y
  rfl

/-- C8 (counterexample): the scanner does not tokenize exactly the
number literals of the spec's grammar — `specNumber`, the
transliteration of the spec's sentence (optional integer part,
optional `.` followed by a fraction part, optional exponent of
`e`/`E`, an optional sign and digits) — because the code never
checks that any digits follow the decimal point or the exponent
marker: the inputs `1e` and `1.` are each consumed in full as a
single `Number` token, yet neither is a literal of the spec's
grammar. -/
theorem c8_number_tokens_counterexample :
    Scan.scanStep "1e".data 1 "" = (.Number, "1e", [], 1) ∧ specNumber "1e" = false ∧
    Scan.scanStep "1.".data 1 "" = (.Number, "1.", [], 1) ∧ specNumber "1." = false ∧
    specNumber "1e5" = true ∧ specNumber "1.5" = true := by
  decide

/-- C8 (amended): the scanner's number branch tokenizes exactly the
literals of the amended grammar `amendedNumber` (a digit run, an
optional `.` with a possibly-empty digit run, and an optional
`e`/`E` with an optional sign and a possibly-empty digit run,
starting with a digit or with `.`-then-digit): (1) a leading `-` is
never part of a number token — on input starting with `-` the
scanner emits the one-character `OpMinus` token; (2) whenever the
number branch fires (input starting with a digit, or `.` followed by
a digit), the token is a `Number` whose text is a prefix of the
input in the amended grammar, the rest of the input being returned
unconsumed; (3) every literal of the amended grammar, given as the
whole input, is consumed in full as a single `Number` token. -/
theorem c8_number_tokens_amended :
    (∀ (cs : List Char) (line : Nat) (prev : String),
        Scan.scanStep ('-' :: cs) line prev = (.OpMinus, "-", cs, line)) ∧
    (∀ (c : Char) (cs : List Char) (line : Nat) (prev : String),
        (c.isDigit || (c = '.' && (cs.head?.map Char.isDigit).getD false)) = true →
        ∃ v rest,
          Scan.scanStep (c :: cs) line prev = (.Number, v, rest, line) ∧
          v.data ++ rest = c :: cs ∧ amendedNumber v = true) ∧
    (∀ s : String, amendedNumber s = true →
        Scan.scanStep s.data 1 "" = (.Number, s, [], 1)) := by
  refine ⟨?_, ?_, ?_⟩
  · intro cs line prev
    rfl
  · intro c cs line prev h
    exact ⟨(Scan.numLex (c :: cs)).1, (Scan.numLex (c :: cs)).2,
      scanStep_number c cs line prev h, numLex_append (c :: cs), amendedNumber_numLex c cs h⟩
  · intro s h
    obtain ⟨hfull, c, cs, hdata, hcond⟩ := numLex_full s h
    rw [hdata]
    rw [scanStep_number c cs 1 "" hcond]
    rw [hdata] at hfull
    rw [hfull]

/-- Witness for C8 (amended) at concrete inputs: a minus sign in
front of a number, a number token cut out of a longer input, and a
complete scientific-notation literal consumed in full. -/
theorem c8_number_tokens_amended_witness :
    Scan.scanStep ('-' :: "3".data) 1 "" = (.OpMinus, "-", "3".data, 1) ∧
    (∃ v rest, Scan.scanStep ('1' :: "2.5e-3;".data) 7 "x" = (.Number, v, rest, 7) ∧
        v.data ++ rest = '1' :: "2.5e-3;".data ∧ amendedNumber v = true) ∧
    Scan.scanStep "12.5e-3".data 1 "" = (.Number, "12.5e-3", [], 1) :=
  ⟨c8_number_tokens_amended.1 "3".data 1 "",
   c8_number_tokens_amended.2.1 '1' "2.5e-3;".data 7 "x" (by decide),
   c8_number_tokens_amended.2.2 "12.5e-3" (by decide)⟩

/-- C9: the text generator never throws — both failure modes return
a single-line error-comment string in place of the normal output:
`generate` of a failed XML parse (the abstracted `none` document)
returns the `XML Parsing Error` comment, and `generate` of any
document without a CellML 2.0 `model` element returns the
`No CellML 2.0 Model found` comment; neither string contains a
newline. -/
theorem c9_generate_failure_semantics :
    TextGen.generate none = "// Error generating text: XML Parsing Error" ∧
    (∀ d : Elem, findNS TextGen.CELLML_2_0_NS "model" d = none →
      TextGen.generate (some d) = "// Error generating text: No CellML 2.0 Model found") ∧
    ("// Error generating text: XML Parsing Error".data.contains '\n' = false) ∧
    ("// Error generating text: No CellML 2.0 Model found".data.contains '\n' = false) := by
  refine ⟨rfl, ?_, by decide, by decide⟩
  intro d h
  have hg : TextGen.generate (some d) =
      (match findNS TextGen.CELLML_2_0_NS "model" d with
       | none => "// Error generating text: No CellML 2.0 Model found"
       | some m => TextGen.processModel m) := rfl
  rw [hg, h]

/-- Witness for C9 at a concrete model-free document. -/
theorem c9_generate_failure_semantics_witness :
    TextGen.generate (some noModelElem) =
      "// Error generating text: No CellML 2.0 Model found" :=
  c9_generate_failure_semantics.2.1 noModelElem rfl

/-- C10: the claim that `parse` terminates on every finite input is
contradicted by the code: on `"def model m as def comp c as"` the
component-body loop reaches end of input, takes its token-skipping
branch forever (`parseComponent`'s loop, unlike the model-level
loop, has no end-of-input check), and `parse` never returns — in
the fuel model, every finite fuel is exhausted. -/
theorem c10_parse_divergence :
    ∀ fuel : Nat, Parser.parse Parser.defaultOpts fuel tNoEnddef = none := by
  intro fuel
  match fuel with
  | 0 => rfl
  | f + 1 =>
    have h1 : Parser.compLoop Parser.defaultOpts f comp0 sAtEOF = .nofuel :=
      compLoop_eof_spins f comp0
    have h2 : Parser.parseBlock Parser.defaultOpts f model0 sAtInnerDef = .nofuel := by
      show Parser.pmBind (Parser.compLoop Parser.defaultOpts f comp0) _ sAtEOF = .nofuel
      unfold Parser.pmBind
      rw [h1]
    have h3 : Parser.modelLoop Parser.defaultOpts (f + 1) model0 sAtInnerDef = .nofuel := by
      show Parser.pmBind (Parser.parseBlock Parser.defaultOpts f model0) _ sAtInnerDef = .nofuel
      unfold Parser.pmBind
      rw [h2]
    have h4 : Parser.parseModel Parser.defaultOpts (f + 1) (Scan.initScan tNoEnddef) = .nofuel := by
      show Parser.pmBind (Parser.modelLoop Parser.defaultOpts (f + 1) model0) _ sAtInnerDef =
        .nofuel
      unfold Parser.pmBind
      rw [h3]
    unfold Parser.parse
    rw [h4]

end CellMLText
